import Mathlib

/-!
# A verification development for the `fusion` SQL query builder

This file gives a shallow embedding, in Lean 4, of the SQL-construction core of
the repository (`src/fusion/sql/querybuilder.py`), and proves properties of the
rendering pipeline: placeholder numbering, lookup semantics, join rendering,
slicing, and the composition of CTE / union / recursive-CTE statements.

Modelling conventions:

* Python runtime values that can appear as condition values are modelled by the
  inductive type `PyVal`.  `vFloat`, `vDatetime` and `vDate` carry an opaque
  numeric code: the renderer only inspects their type, never their contents.
  A Python `bool` is an instance of `int` (so `match ... case int()` matches
  `True`); the places in the embedding where this matters are marked.
* Python `set` iteration order is unspecified; the embedding represents a set
  by the list of its elements in iteration order, so `list(value)[0]` is the
  head of that list.
* Mutation of the shared bound-values list is modelled by explicit state
  passing: every rendering function takes the accumulator and returns the
  extended accumulator.
* Exceptions are modelled by `Except RErr`; `RErr.valueErr`/`typeErr`/
  `indexErr` correspond to Python `ValueError`/`TypeError`/`IndexError`.
  Error message texts are kept close to the source but without quote
  characters.
* The recursion of the renderer is structurally bounded in Python (builder
  values form finite trees); the Lean functions take an explicit fuel
  parameter, decremented at every call, and return `RErr.fuelOut` when it runs
  out.  All theorems about successful renders quantify over the fuel.
-/

mutual

/-- Python values that can occur as condition values in the query builder.
`vQuery` embeds a nested `Query` (subquery), `vExp` embeds an `Exp` raw-SQL
expression (querybuilder.py `class Exp`, whose `expression` string is rendered
verbatim). -/
inductive PyVal where
  | vBool (b : Bool)
  | vInt (n : Int)
  | vStr (s : String)
  | vFloat (code : Nat)
  | vDatetime (code : Nat)
  | vDate (code : Nat)
  | vNone
  | vList (xs : List PyVal)
  | vTuple (xs : List PyVal)
  | vSet (xs : List PyVal)
  | vDict (xs : List (PyVal × PyVal))
  | vQuery (q : Query)
  | vExp (e : String)

/-- A positional argument of `Q` (type alias `_Q` in querybuilder.py).  The
`__or__`/`__and__`/`__invert__` operators build the tagged tuples
`("OR", l, r)`, `("AND", l, r)`, `("NOT", q)`; anything else (for example a
bare `Q` passed positionally) falls into the `case _` branch of `Q._render`
and is modelled by `qInvalid`. -/
inductive QArg where
  | qOr (l r : Q)
  | qAnd (l r : Q)
  | qNot (q : Q)
  | qInvalid

/-- `class Q`: positional combinator arguments and keyword field lookups, in
declaration order. -/
inductive Q where
  | mk (args : List QArg) (kwargs : List (String × PyVal))

/-- The `to` field of `class Join` is annotated `Union["Query", str]`; a model
class (table-ref capability, `modelRef`) can still be passed at runtime and is
handled by the `case _` branch of `Join._render`. -/
inductive JoinTarget where
  | table (t : String)
  | sub (q : Query)
  | modelRef (qualified : String)

/-- `class Join` and its subclasses: `joinType` models the `__join_type__`
class variable ("INNER", "LEFT", "RIGHT", "FULL", "CROSS"). -/
inductive Join where
  | mk (joinType : String) (target : JoinTarget) (onCond : Option Q) (usingCols : Option String)

/-- A `DataSource` (`Union[Join, "Query", str]`, plus model classes handled by
the `case _` branch of `Query.sql`, modelled by `modelRef` carrying the
qualified `tablename()` result). -/
inductive DataSource where
  | table (t : String)
  | modelRef (qualified : String)
  | sub (q : Query)
  | joinSrc (j : Join)

/-- `class Query`: selections are `str` (`Sum.inl`) or `(alias, column)`
(`Sum.inr`), matching the field annotation
`tuple[Union[str, tuple[str, str]], ...]`. -/
inductive Query where
  | mk (sources : List (String × DataSource))
       (selections : List (String ⊕ (String × String)))
       (conditions : List Q)
       (groupbys : List String)
       (orderbys : List String)
       (limitVal : Option Int)
       (offsetVal : Option Int)
       (distinctVal : Option String)

end

/-- `class With`: non-recursive CTE (main query plus aliased CTE queries). -/
inductive With where
  | mk (main : Query) (ctes : List (String × Query))

/-- `class QueryUnion`. -/
inductive QueryUnion where
  | mk (queries : List Query) (allFlag : Bool)

/-- `class RecursiveWith`. -/
inductive RecursiveWith where
  | mk (main : Query) (base : QueryUnion) (aliasName : String)

/-- Errors: `fuelOut` is the out-of-fuel marker of the embedding; the others
model Python `ValueError`, `TypeError` and `IndexError`. -/
inductive RErr where
  | fuelOut
  | valueErr (msg : String)
  | typeErr (msg : String)
  | indexErr

/-- Result of a rendering step: the text plus the extended accumulator. -/
abbrev Res := Except RErr (String × List PyVal)

/-- Big-endian decimal digits of `n` in little-endian order, with fuel (the
fuel `n + 1` used by `natRepr` always suffices). -/
def natDigitsRev (fuel n : Nat) : List Nat :=
  match fuel with
  | 0 => []
  | f+1 => if n < 10 then [n] else n % 10 :: natDigitsRev f (n / 10)

/-- Decimal rendering of a natural number, as Python `str`/f-string formatting
produces for a nonnegative `int`. -/
def natRepr (n : Nat) : String :=
  ⟨(natDigitsRev (n+1) n).reverse.map (fun d => Char.ofNat (48 + d))⟩

/-- Python `sep.join(pieces)`. -/
def joinSep (sep : String) : List String → String
  | [] => ""
  | [s] => s
  | s :: rest => s ++ (sep ++ joinSep sep rest)

/-- Split a character list into lines, each line keeping its trailing
newline — Python `str.splitlines(keepends=True)` restricted to `\n`
separators (the only line separator the renderer ever produces). -/
def splitAfterNl : List Char → List (List Char)
  | [] => []
  | c :: cs =>
    match splitAfterNl cs with
    | [] => [[c]]
    | p :: ps => if c = '\n' then [c] :: p :: ps else (c :: p) :: ps

/-- One line of `textwrap.indent(text, "  ")`: the prefix is added to lines
that contain a non-whitespace character (`line.strip()` nonempty). -/
def prefLine (l : List Char) : List Char :=
  if l.all (fun c => c.isWhitespace) then l else ' ' :: ' ' :: l

/-- `textwrap.indent(text, "  ")` as used throughout the renderer. -/
def indent2 (s : String) : String :=
  ⟨((splitAfterNl s.data).map prefLine).flatten⟩

/-- Python truthiness of the modelled values (`if value:`). The truthiness of
an opaque `vFloat` code is `code ≠ 0`, matching `float` truthiness under the
convention that code 0 stands for `0.0`. -/
def pyTruthy : PyVal → Bool
  | .vBool b => b
  | .vInt n => n ≠ 0
  | .vStr s => s ≠ ""
  | .vFloat c => c ≠ 0
  | .vDatetime _ => true
  | .vDate _ => true
  | .vNone => false
  | .vList xs => !xs.isEmpty
  | .vTuple xs => !xs.isEmpty
  | .vSet xs => !xs.isEmpty
  | .vDict xs => !xs.isEmpty
  | .vQuery _ => true
  | .vExp _ => true

/-- The recognized lookup keywords (`lookups` in `_split_lookup`). -/
def lookupKeywords : List String :=
  ["contains", "startswith", "endswith", "range", "in", "isnull", "gte", "lte", "gt", "lt"]

/-- Python `lookup.split("__")`: split on non-overlapping occurrences of
`__`, scanning left to right. -/
def splitUU : List Char → List (List Char)
  | [] => [[]]
  | '_' :: '_' :: rest => [] :: splitUU rest
  | c :: rest =>
    match splitUU rest with
    | [] => [[c]]
    | p :: ps => (c :: p) :: ps

/-- `_split_lookup(lookup)`: split a keyword key into table, column and
lookup parts. -/
def splitLookup (s : String) : Except RErr (String × String × String) :=
  match (splitUU s.data).map (fun l => (⟨l⟩ : String)) with
  | [c] => .ok ("", c, "")
  | [a, b] =>
    if lookupKeywords.contains b then .ok ("", a, b) else .ok (a, b, "")
  | [a, b, c] => .ok (a, b, c)
  | _ => .error (.valueErr "Invalid lookup")

/-- Column qualification in `Q._render`: `"table"."column"` when a table part
is present (Python truthiness: nonempty string), else `"column"`. -/
def colRender (table column : String) : String :=
  if table ≠ "" then "\"" ++ table ++ "\".\"" ++ column ++ "\"" else "\"" ++ column ++ "\""

/-- One ORDER BY entry of `Query.sql`: a leading `-` renders `col DESC`. -/
def orderItem (s : String) : String :=
  match s.data with
  | '-' :: rest => (⟨rest⟩ : String) ++ " DESC"
  | _ => s

/-- One SELECT entry of `Query.sql`: a string renders verbatim, an
`(alias, column)` pair renders `column "alias"`. -/
def selRender : (String ⊕ (String × String)) → String
  | .inl c => c
  | .inr (a, c) => c ++ " \"" ++ a ++ "\""

/-- Python rendering of an `Optional[str]` into an f-string (`None` prints as
`"None"`). -/
def optStr : Option String → String
  | some s => s
  | none => "None"

/-- The SELECT prefix of `Query.sql`, chosen by the `_distinct` field
(`None` → plain, `""` → `DISTINCT`, column → `DISTINCT ON`). -/
def selectPrefix (dist : Option String) : String :=
  match dist with
  | none => "SELECT "
  | some "" => "SELECT DISTINCT "
  | some c => "SELECT DISTINCT ON(" ++ c ++ ") "

mutual

/-- The inner `placeholder` helper of `Q._render` (querybuilder.py 129-139):
a nested `Query` renders as an indented parenthesized subquery feeding the
shared accumulator, an `Exp` renders verbatim, anything else is appended to
the accumulator and replaced by `$N`. -/
def placeholderF (fuel : Nat) (v : PyVal) (vals : List PyVal) : Res :=
  match fuel with
  | 0 => .error .fuelOut
  | f+1 =>
    match v with
    | .vQuery q =>
      match sqlF f q vals with
      | .error e => .error e
      | .ok (sub, vs) => .ok ("(\n" ++ indent2 sub ++ "\n)", vs)
    | .vExp e => .ok (e, vals)
    | _ => .ok ("$" ++ natRepr (vals.length + 1), vals ++ [v])

/-- One keyword entry of `Q._render` (querybuilder.py 154-218): lookup
dispatch. -/
def kwEntryF (fuel : Nat) (key : String) (v : PyVal) (vals : List PyVal) : Res :=
  match fuel with
  | 0 => .error .fuelOut
  | f+1 =>
    match splitLookup key with
    | .error e => .error e
    | .ok (table, column, lookup) =>
      let col := colRender table column
      match lookup with
      | "" =>
        match placeholderF f v vals with
        | .error e => .error e
        | .ok (ph, v1) => .ok (col ++ " = " ++ ph, v1)
      | "contains" =>
        match placeholderF f v vals with
        | .error e => .error e
        | .ok (ph, v1) => .ok (col ++ " LIKE '%' || " ++ ph ++ " || '%'", v1)
      | "startswith" =>
        match placeholderF f v vals with
        | .error e => .error e
        | .ok (ph, v1) => .ok (col ++ " LIKE " ++ ph ++ " || '%'", v1)
      | "endswith" =>
        match placeholderF f v vals with
        | .error e => .error e
        | .ok (ph, v1) => .ok (col ++ " LIKE '%' || " ++ ph, v1)
      | "range" =>
        -- `start, end = value`: unpack a two-element sequence.
        match v with
        | .vList [a, b] | .vTuple [a, b] | .vSet [a, b] =>
          match placeholderF f a vals with
          | .error e => .error e
          | .ok (p1, v1) =>
            match placeholderF f b v1 with
            | .error e => .error e
            | .ok (p2, v2) => .ok (col ++ " BETWEEN " ++ p1 ++ " AND " ++ p2, v2)
        | _ => .error (.valueErr "cannot unpack range value")
      | "in" =>
        match v with
        | .vQuery _ =>
          match placeholderF f v vals with
          | .error e => .error e
          | .ok (ph, v1) => .ok (col ++ " IN " ++ ph, v1)
        | .vList xs | .vTuple xs | .vSet xs =>
          -- `value[0]` / `list(value)[0]`: IndexError on an empty collection.
          match xs with
          | [] => .error .indexErr
          | item :: _ =>
            -- `match item` type dispatch.  Python `bool` is a subclass of
            -- `int`, so `True`/`False` are matched by `case int()`.
            match (match item with
                   | .vBool _ => some "int"
                   | .vInt _ => some "int"
                   | .vStr _ => some "text"
                   | .vFloat _ => some "float"
                   | .vDatetime _ => some "timestamptz"
                   | .vDate _ => some "date"
                   | _ => none) with
            | none => .error (.valueErr "Unsupported value for in lookup")
            | some typ =>
              match placeholderF f v vals with
              | .error e => .error e
              | .ok (ph, v1) => .ok (col ++ " = any(" ++ ph ++ "::" ++ typ ++ "[])", v1)
        | _ => .error (.valueErr "Unsupported value for in lookup")
      | "isnull" =>
        if pyTruthy v then .ok (col ++ " IS NULL", vals)
        else .ok (col ++ " IS NOT NULL", vals)
      | "gte" =>
        match placeholderF f v vals with
        | .error e => .error e
        | .ok (ph, v1) => .ok (col ++ " >= " ++ ph, v1)
      | "lte" =>
        match placeholderF f v vals with
        | .error e => .error e
        | .ok (ph, v1) => .ok (col ++ " <= " ++ ph, v1)
      | "gt" =>
        match placeholderF f v vals with
        | .error e => .error e
        | .ok (ph, v1) => .ok (col ++ " > " ++ ph, v1)
      | "lt" =>
        match placeholderF f v vals with
        | .error e => .error e
        | .ok (ph, v1) => .ok (col ++ " < " ++ ph, v1)
      | _ => .error (.valueErr "Unsupported lookup")

/-- The keyword loop of `Q._render`, producing one WHERE piece per entry. -/
def kwsF (fuel : Nat) (kws : List (String × PyVal)) (vals : List PyVal) :
    Except RErr (List String × List PyVal) :=
  match fuel with
  | 0 => .error .fuelOut
  | f+1 =>
    match kws with
    | [] => .ok ([], vals)
    | (k, v) :: rest =>
      match kwEntryF f k v vals with
      | .error e => .error e
      | .ok (piece, v1) =>
        match kwsF f rest v1 with
        | .error e => .error e
        | .ok (pieces, v2) => .ok (piece :: pieces, v2)

/-- The positional-argument loop of `Q._render` (querybuilder.py 143-152):
combinator dispatch, one WHERE piece per entry. -/
def argsF (fuel : Nat) (args : List QArg) (vals : List PyVal) :
    Except RErr (List String × List PyVal) :=
  match fuel with
  | 0 => .error .fuelOut
  | f+1 =>
    match args with
    | [] => .ok ([], vals)
    | a :: rest =>
      match (match a with
             | .qOr l r =>
               match qRenderF f l vals with
               | .error e => .error e
               | .ok (lt, va) =>
                 match qRenderF f r va with
                 | .error e => .error e
                 | .ok (rt, vb) => .ok ("(" ++ lt ++ " OR " ++ rt ++ ")", vb)
             | .qAnd l r =>
               match qRenderF f l vals with
               | .error e => .error e
               | .ok (lt, va) =>
                 match qRenderF f r va with
                 | .error e => .error e
                 | .ok (rt, vb) => .ok ("(" ++ lt ++ " AND " ++ rt ++ ")", vb)
             | .qNot q0 =>
               match qRenderF f q0 vals with
               | .error e => .error e
               | .ok (t, va) => .ok ("NOT (" ++ t ++ ")", va)
             | .qInvalid => .error (.valueErr "Invalid argument") :
               Except RErr (String × List PyVal)) with
      | .error e => .error e
      | .ok (piece, v1) =>
        match argsF f rest v1 with
        | .error e => .error e
        | .ok (pieces, v2) => .ok (piece :: pieces, v2)

/-- `Q._render`: positional combinators first, then keyword lookups, all
pieces joined with `" AND "`. -/
def qRenderF (fuel : Nat) (q : Q) (vals : List PyVal) : Res :=
  match fuel with
  | 0 => .error .fuelOut
  | f+1 =>
    match q with
    | .mk args kwargs =>
      match argsF f args vals with
      | .error e => .error e
      | .ok (cl1, v1) =>
        match kwsF f kwargs v1 with
        | .error e => .error e
        | .ok (cl2, v2) => .ok (joinSep " AND " (cl1 ++ cl2), v2)

/-- `Join._render(alias, values)` (querybuilder.py 240-253).  Note the
faithful double space before `USING`: the f-string is
`f-string {type} JOIN {source} AS "{alias}" {condition}` with
`condition = f" USING ({self.using})"`. -/
def joinRenderF (fuel : Nat) (j : Join) (aliasName : String) (vals : List PyVal) : Res :=
  match fuel with
  | 0 => .error .fuelOut
  | f+1 =>
    match j with
    | .mk jt tgt onC usingC =>
      match (match tgt with
             | .table t => .ok (t, vals)
             | .sub q =>
               match sqlF f q vals with
               | .error e => .error e
               | .ok (s, vs) => .ok ("(\n" ++ indent2 s ++ "\n)", vs)
             | .modelRef _ => .error (.valueErr "Invalid source for join") :
               Except RErr (String × List PyVal)) with
      | .error e => .error e
      | .ok (source, v1) =>
        match onC with
        | some c =>
          match qRenderF f c v1 with
          | .error e => .error e
          | .ok (ct, v2) =>
            .ok (jt ++ " JOIN " ++ source ++ " AS \"" ++ aliasName ++ "\" " ++ "ON (" ++ ct ++ ")", v2)
        | none =>
          .ok (jt ++ " JOIN " ++ source ++ " AS \"" ++ aliasName ++ "\" " ++ " USING (" ++
               optStr usingC ++ ")", v1)

/-- The source loop of `Query.sql` (querybuilder.py 530-544): accumulate the
`tables`, `subqueries` and `joins` lists in insertion order, threading the
accumulator through joins and subqueries as they are encountered. -/
def sourcesF (fuel : Nat) (srcs : List (String × DataSource)) (vals : List PyVal) :
    Except RErr (List String × List String × List String × List PyVal) :=
  match fuel with
  | 0 => .error .fuelOut
  | f+1 =>
    match srcs with
    | [] => .ok ([], [], [], vals)
    | (aliasName, src) :: rest =>
      match src with
      | .joinSrc j =>
        match joinRenderF f j aliasName vals with
        | .error e => .error e
        | .ok (jt, v1) =>
          match sourcesF f rest v1 with
          | .error e => .error e
          | .ok (ts, ss, js, v2) => .ok (ts, ss, indent2 ("\n" ++ jt) :: js, v2)
      | .sub q =>
        match sqlF f q vals with
        | .error e => .error e
        | .ok (qt, v1) =>
          match sourcesF f rest v1 with
          | .error e => .error e
          | .ok (ts, ss, js, v2) =>
            .ok (ts, ("(\n" ++ indent2 qt ++ "\n) AS \"" ++ aliasName ++ "\"") :: ss, js, v2)
      | .table t =>
        match sourcesF f rest vals with
        | .error e => .error e
        | .ok (ts, ss, js, v2) => .ok ((t ++ " AS \"" ++ aliasName ++ "\"") :: ts, ss, js, v2)
      | .modelRef m =>
        match sourcesF f rest vals with
        | .error e => .error e
        | .ok (ts, ss, js, v2) => .ok ((m ++ " AS \"" ++ aliasName ++ "\"") :: ts, ss, js, v2)

/-- The WHERE loop of `Query.sql`: render each condition in declaration
order. -/
def condsF (fuel : Nat) (conds : List Q) (vals : List PyVal) :
    Except RErr (List String × List PyVal) :=
  match fuel with
  | 0 => .error .fuelOut
  | f+1 =>
    match conds with
    | [] => .ok ([], vals)
    | c :: rest =>
      match qRenderF f c vals with
      | .error e => .error e
      | .ok (piece, v1) =>
        match condsF f rest v1 with
        | .error e => .error e
        | .ok (pieces, v2) => .ok (piece :: pieces, v2)

/-- `Query.sql(values)` (querybuilder.py 496-583). -/
def sqlF (fuel : Nat) (q : Query) (vals : List PyVal) : Res :=
  match fuel with
  | 0 => .error .fuelOut
  | f+1 =>
    match q with
    | .mk srcs sels conds gbs obs lim off dist =>
      let selStrs := (if sels.isEmpty then [Sum.inl "*"] else sels).map selRender
      let selectClause := selectPrefix dist ++ joinSep ", " selStrs
      match sourcesF f srcs vals with
      | .error e => .error e
      | .ok (tabs, subs, joins, v1) =>
        let fromClause := "\nFROM " ++ joinSep ", " tabs ++ joinSep "\n" (subs ++ joins)
        match (match conds with
               | [] => .ok ("", v1)
               | _ =>
                 match condsF f conds v1 with
                 | .error e => .error e
                 | .ok (wcls, v2) => .ok ("\nWHERE " ++ joinSep " AND " wcls, v2) :
                 Except RErr (String × List PyVal)) with
        | .error e => .error e
        | .ok (whereClause, v2) =>
          let groupClause := if gbs.isEmpty then "" else "\nGROUP BY " ++ joinSep ", " gbs
          let orderClause :=
            if obs.isEmpty then "" else "\nORDER BY " ++ joinSep ", " (obs.map orderItem)
          let (limitClause, v3) :=
            match lim with
            | none => ("", v2)
            | some n => ("\nLIMIT $" ++ natRepr (v2.length + 1), v2 ++ [PyVal.vInt n])
          let (offsetClause, v4) :=
            match off with
            | none => ("", v3)
            | some n => ("\nOFFSET $" ++ natRepr (v3.length + 1), v3 ++ [PyVal.vInt n])
          .ok (selectClause ++ fromClause ++ whereClause ++ groupClause ++ orderClause ++
               limitClause ++ offsetClause, v4)

end

/-- The CTE loop of `With.sql` (querybuilder.py 620-624): render each aliased
CTE query in declaration order, sharing the accumulator. -/
def ctesF (fuel : Nat) (ctes : List (String × Query)) (vals : List PyVal) :
    Except RErr (List String × List PyVal) :=
  match fuel with
  | 0 => .error .fuelOut
  | f+1 =>
    match ctes with
    | [] => .ok ([], vals)
    | (aliasName, q) :: rest =>
      match sqlF f q vals with
      | .error e => .error e
      | .ok (qt, v1) =>
        match ctesF f rest v1 with
        | .error e => .error e
        | .ok (pieces, v2) =>
          .ok (("\"" ++ aliasName ++ "\" AS (\n" ++ indent2 qt ++ "\n)") :: pieces, v2)

/-- `With.sql(values)` (querybuilder.py 616-627): CTEs first (comma-joined),
then the main query, one shared accumulator. -/
def withSqlF (fuel : Nat) (w : With) (vals : List PyVal) : Res :=
  match fuel with
  | 0 => .error .fuelOut
  | f+1 =>
    match w with
    | .mk main ctes =>
      match ctesF f ctes vals with
      | .error e => .error e
      | .ok (pieces, v1) =>
        match sqlF f main v1 with
        | .error e => .error e
        | .ok (mt, v2) => .ok ("WITH " ++ joinSep ",\n" pieces ++ "\n" ++ mt, v2)

/-- The member loop of `QueryUnion.sql`: render each member indented, in
member order, sharing the accumulator. -/
def unionPiecesF (fuel : Nat) (qs : List Query) (vals : List PyVal) :
    Except RErr (List String × List PyVal) :=
  match fuel with
  | 0 => .error .fuelOut
  | f+1 =>
    match qs with
    | [] => .ok ([], vals)
    | q :: rest =>
      match sqlF f q vals with
      | .error e => .error e
      | .ok (qt, v1) =>
        match unionPiecesF f rest v1 with
        | .error e => .error e
        | .ok (pieces, v2) => .ok (indent2 qt :: pieces, v2)

/-- `QueryUnion.sql(values)` (querybuilder.py 675-684). -/
def unionSqlF (fuel : Nat) (u : QueryUnion) (vals : List PyVal) : Res :=
  match fuel with
  | 0 => .error .fuelOut
  | f+1 =>
    match u with
    | .mk qs allF =>
      match unionPiecesF f qs vals with
      | .error e => .error e
      | .ok (pieces, v1) =>
        .ok (joinSep (if allF then "\nUNION ALL\n" else "\nUNION\n") pieces, v1)

/-- `RecursiveWith.sql(values)` (querybuilder.py 730-736): base union first,
then the main query, one shared accumulator. -/
def recSqlF (fuel : Nat) (r : RecursiveWith) (vals : List PyVal) : Res :=
  match fuel with
  | 0 => .error .fuelOut
  | f+1 =>
    match r with
    | .mk main base aliasName =>
      match unionSqlF f base vals with
      | .error e => .error e
      | .ok (bt, v1) =>
        match sqlF f main v1 with
        | .error e => .error e
        | .ok (mt, v2) =>
          .ok ("WITH RECURSIVE \"" ++ aliasName ++ "\" AS (\n" ++ indent2 bt ++ "\n)\n" ++ mt, v2)

/-- Projections of `Query`. -/
def Query.sources : Query → List (String × DataSource)
  | .mk s _ _ _ _ _ _ _ => s

def Query.selections : Query → List (String ⊕ (String × String))
  | .mk _ s _ _ _ _ _ _ => s

def Query.conditions : Query → List Q
  | .mk _ _ c _ _ _ _ _ => c

def Query.groupbys : Query → List String
  | .mk _ _ _ g _ _ _ _ => g

def Query.orderbys : Query → List String
  | .mk _ _ _ _ o _ _ _ => o

def Query.limitVal : Query → Option Int
  | .mk _ _ _ _ _ l _ _ => l

def Query.offsetVal : Query → Option Int
  | .mk _ _ _ _ _ _ o _ => o

def Query.distinctVal : Query → Option String
  | .mk _ _ _ _ _ _ _ d => d

/-- `Query.source(**sources)`: append aliased data sources. -/
def Query.sourceB (q : Query) (srcs : List (String × DataSource)) : Query :=
  match q with
  | .mk s sel c g o l off d => .mk (s ++ srcs) sel c g o l off d

/-- `Query.select(*args, **kwargs)`: append selections, positional strings
first, then aliased entries. -/
def Query.selectB (q : Query) (args : List String) (kwargs : List (String × String)) : Query :=
  match q with
  | .mk s sel c g o l off d =>
    .mk s (sel ++ args.map Sum.inl ++ kwargs.map (fun p => Sum.inr (p.1, p.2))) c g o l off d

/-- `Query.where(*args, **kwargs)`: append the positional `Q` conditions,
then one fresh single-entry `Q` per keyword argument. -/
def Query.whereB (q : Query) (args : List Q) (kwargs : List (String × PyVal)) : Query :=
  match q with
  | .mk s sel c g o l off d =>
    .mk s sel (c ++ args ++ kwargs.map (fun kv => Q.mk [] [kv])) g o l off d

/-- `Query.group_by(*groups)`. -/
def Query.groupByB (q : Query) (groups : List String) : Query :=
  match q with
  | .mk s sel c g o l off d => .mk s sel c (g ++ groups) o l off d

/-- `Query.order_by(*orderbys)`. -/
def Query.orderByB (q : Query) (orderbys : List String) : Query :=
  match q with
  | .mk s sel c g o l off d => .mk s sel c g (o ++ orderbys) l off d

/-- `Query.limit(limit)`: fails on a negative limit. -/
def Query.limitB (q : Query) (n : Int) : Except RErr Query :=
  if n < 0 then .error (.valueErr "Limit must be a positive integer")
  else
    match q with
    | .mk s sel c g o _ off d => .ok (.mk s sel c g o (some n) off d)

/-- `Query.offset(offset)`: fails on a negative offset. -/
def Query.offsetB (q : Query) (n : Int) : Except RErr Query :=
  if n < 0 then .error (.valueErr "Offset must be a positive integer")
  else
    match q with
    | .mk s sel c g o l _ d => .ok (.mk s sel c g o l (some n) d)

/-- `Query.distinct(on)`: store the distinct column (default `""`, plain
`DISTINCT`; `none` restores a plain `SELECT`). -/
def Query.distinctB (q : Query) (onCol : Option String) : Query :=
  match q with
  | .mk s sel c g o l off _ => .mk s sel c g o l off onCol

/-- A Python index expression handed to `Query.__getitem__`: either a scalar
or a `slice` with optional start/stop/step. -/
inductive SliceKey where
  | scalar (i : Int)
  | slice (start stop step : Option Int)

/-- `Query.__getitem__(key)` (querybuilder.py 365-410): scalar indices raise
`TypeError`, a slice with any explicit step raises `ValueError`; otherwise
`offset(start)` is applied when start is present and
`limit(stop - start if key.start else stop)` when stop is present (note the
Python truthiness: a zero start counts as absent in the limit computation). -/
def Query.getitemB (q : Query) (k : SliceKey) : Except RErr Query :=
  match k with
  | .scalar _ => .error (.typeErr "Invalid index type")
  | .slice start stop step =>
    match step with
    | some _ => .error (.valueErr "Step is not supported")
    | none =>
      match (match start with
             | some s => q.offsetB s
             | none => .ok q : Except RErr Query) with
      | .error e => .error e
      | .ok q1 =>
        match stop with
        | some e2 =>
          q1.limitB (match start with
                     | some s => if s ≠ 0 then e2 - s else e2
                     | none => e2)
        | none => .ok q1

/-- `query(**sources)`: at least one data source is required. -/
def queryB (srcs : List (String × DataSource)) : Except RErr Query :=
  if srcs.isEmpty then .error (.valueErr "At least one data source is required")
  else .ok (.mk srcs [] [] [] [] none none none)

/-- `cte(main, **ctes)`: at least one CTE is required. -/
def cteB (main : Query) (ctes : List (String × Query)) : Except RErr With :=
  if ctes.isEmpty then .error (.valueErr "At least one CTE must be provided")
  else .ok (.mk main ctes)

/-- `union(*queries, all)`: at least two queries are required. -/
def unionB (qs : List Query) (allF : Bool) : Except RErr QueryUnion :=
  if qs.length < 2 then .error (.valueErr "At least two queries must be provided")
  else .ok (.mk qs allF)

/-- `recursive_cte(main, **kwargs)`: exactly one aliased union is required. -/
def recursiveCteB (main : Query) (kwargs : List (String × QueryUnion)) :
    Except RErr RecursiveWith :=
  match kwargs with
  | [(aliasName, base)] => .ok (.mk main base aliasName)
  | _ => .error (.valueErr "Exactly one union query must be provided")

/-- Python truthiness of the `on` field (`Optional[Q]`): any `Q` object is
truthy. -/
def onTruthy : Option Q → Bool
  | some _ => true
  | none => false

/-- Python truthiness of the `using` field (`Optional[str]`): the empty
string is falsy. -/
def usingTruthy : Option String → Bool
  | some s => s ≠ ""
  | none => false

/-- `Join.__post_init__` (querybuilder.py 233-238): constructing a join with
both `on` and `using` truthy, or with neither truthy, fails. -/
def mkJoin (jt : String) (tgt : JoinTarget) (onC : Option Q) (usingC : Option String) :
    Except RErr Join :=
  if onTruthy onC && usingTruthy usingC then
    .error (.valueErr "Cannot specify both on and using for a join condition")
  else if !onTruthy onC && !usingTruthy usingC then
    .error (.valueErr "Missing join condition")
  else .ok (.mk jt tgt onC usingC)

/-- State of the placeholder scanner: `none` outside a placeholder token;
`some (n, seen)` right after a `$`, carrying the value of the digits read so
far and whether at least one digit has been read. -/
abbrev PhState := Option (Nat × Bool)

/-- One step of the `$N` placeholder-token scanner. -/
def phStep (st : PhState) (c : Char) : List Nat × PhState :=
  match st with
  | none => if c = '$' then ([], some (0, false)) else ([], none)
  | some (n, seen) =>
    if c.isDigit then ([], some (n * 10 + (c.toNat - 48), true))
    else if c = '$' then ((if seen then [n] else []), some (0, false))
    else ((if seen then [n] else []), none)

/-- Run the scanner over a character list, collecting completed tokens. -/
def phRun (st : PhState) : List Char → List Nat × PhState
  | [] => ([], st)
  | c :: cs =>
    ((phStep st c).1 ++ (phRun (phStep st c).2 cs).1, (phRun (phStep st c).2 cs).2)

/-- A token still pending at the end of the text. -/
def flushPh : PhState → List Nat
  | some (n, true) => [n]
  | _ => []

/-- The numbers of the maximal `$<digits>` placeholder tokens occurring in a
character list, in occurrence order. -/
def toks (l : List Char) : List Nat :=
  (phRun none l).1 ++ flushPh (phRun none l).2

/-- Placeholder numbers occurring in a string, in occurrence order. -/
def toksS (s : String) : List Nat := toks s.data

/-- `s` contains no `$` character, so it cannot contribute or extend a
placeholder token. -/
def noDollar (s : String) : Prop := '$' ∉ s.data

/-- The first character exists and is not a digit, so the text cannot extend
a pending placeholder token of what precedes it. -/
def headClean (l : List Char) : Prop :=
  match l with
  | [] => False
  | c :: _ => ¬ c.isDigit

/-- String version of `headClean`. -/
def headCleanS (s : String) : Prop := headClean s.data

/-- `Contig k pieces k2`: the placeholder tokens of the successive pieces
are, as multisets, the consecutive runs `k+1 ..`, continuing each other and
ending at `k2` — the numbering property of a sequence of renders sharing one
accumulator. -/
inductive Contig : Nat → List String → Nat → Prop where
  | nil (k : Nat) : Contig k [] k
  | cons (k : Nat) (s : String) (a : Nat) (rest : List String) (k2 : Nat)
      (hs : List.Perm (toksS s) (List.range' (k+1) a))
      (hrest : Contig (k + a) rest k2) : Contig k (s :: rest) k2

/-- Dollar-freeness of one selection entry. -/
def DFSel : (String ⊕ (String × String)) → Prop
  | .inl c => noDollar c
  | .inr p => noDollar p.1 ∧ noDollar p.2

mutual

/-- All strings rendered verbatim inside a condition value are dollar-free:
the `Exp` escape hatch, nested queries, and collection elements (`range`
lookups unpack and render collection elements). -/
inductive DFVal : PyVal → Prop where
  | vBool (b) : DFVal (.vBool b)
  | vInt (n) : DFVal (.vInt n)
  | vStr (s) : DFVal (.vStr s)
  | vFloat (c) : DFVal (.vFloat c)
  | vDatetime (c) : DFVal (.vDatetime c)
  | vDate (c) : DFVal (.vDate c)
  | vNone : DFVal .vNone
  | vList (xs) (h : ∀ x ∈ xs, DFVal x) : DFVal (.vList xs)
  | vTuple (xs) (h : ∀ x ∈ xs, DFVal x) : DFVal (.vTuple xs)
  | vSet (xs) (h : ∀ x ∈ xs, DFVal x) : DFVal (.vSet xs)
  | vDict (xs) : DFVal (.vDict xs)
  | vQuery (q) (h : DFQuery q) : DFVal (.vQuery q)
  | vExp (e) (h : noDollar e) : DFVal (.vExp e)

/-- Dollar-freeness of a positional condition argument. -/
inductive DFArg : QArg → Prop where
  | qOr (l r) (hl : DFQ l) (hr : DFQ r) : DFArg (.qOr l r)
  | qAnd (l r) (hl : DFQ l) (hr : DFQ r) : DFArg (.qAnd l r)
  | qNot (q) (h : DFQ q) : DFArg (.qNot q)
  | qInvalid : DFArg .qInvalid

/-- Dollar-freeness of a condition: keys and values. -/
inductive DFQ : Q → Prop where
  | mk (args kwargs) (ha : ∀ a ∈ args, DFArg a)
      (hk1 : ∀ p ∈ kwargs, noDollar (Prod.fst p))
      (hk2 : ∀ p ∈ kwargs, DFVal (Prod.snd p)) : DFQ (.mk args kwargs)

/-- Dollar-freeness of a join target. -/
inductive DFTarget : JoinTarget → Prop where
  | table (t) (h : noDollar t) : DFTarget (.table t)
  | sub (q) (h : DFQuery q) : DFTarget (.sub q)
  | modelRef (m) : DFTarget (.modelRef m)

/-- Dollar-freeness of a join. -/
inductive DFJoin : Join → Prop where
  | mk (jt tgt onC usingC) (hjt : noDollar jt) (htgt : DFTarget tgt)
      (hon : ∀ c ∈ onC, DFQ c) (hus : ∀ s ∈ usingC, noDollar s) :
      DFJoin (.mk jt tgt onC usingC)

/-- Dollar-freeness of a data source. -/
inductive DFSource : DataSource → Prop where
  | table (t) (h : noDollar t) : DFSource (.table t)
  | modelRef (m) (h : noDollar m) : DFSource (.modelRef m)
  | sub (q) (h : DFQuery q) : DFSource (.sub q)
  | joinSrc (j) (h : DFJoin j) : DFSource (.joinSrc j)

/-- Dollar-freeness of a query: every string rendered verbatim (aliases,
table names, selections, group-by, order-by, distinct column) is
dollar-free, and the condition values are recursively dollar-free. -/
inductive DFQuery : Query → Prop where
  | mk (srcs sels conds gbs obs lim off dist)
      (hs1 : ∀ p ∈ srcs, noDollar (Prod.fst p))
      (hs2 : ∀ p ∈ srcs, DFSource (Prod.snd p))
      (hsel : ∀ s ∈ sels, DFSel s)
      (hc : ∀ c ∈ conds, DFQ c)
      (hg : ∀ g ∈ gbs, noDollar g)
      (ho : ∀ o2 ∈ obs, noDollar o2)
      (hd : ∀ d ∈ dist, noDollar d) :
      DFQuery (.mk srcs sels conds gbs obs lim off dist)

end

/-- Dollar-freeness of a CTE statement. -/
def DFWith : With → Prop
  | .mk main ctes => DFQuery main ∧ ∀ p ∈ ctes, noDollar p.1 ∧ DFQuery p.2

/-- Dollar-freeness of a union. -/
def DFUnion : QueryUnion → Prop
  | .mk qs _ => ∀ q ∈ qs, DFQuery q

/-- Dollar-freeness of a recursive CTE statement. -/
def DFRec : RecursiveWith → Prop
  | .mk main base a => DFQuery main ∧ DFUnion base ∧ noDollar a

/-- A successful render from accumulator `vals`: the accumulator is extended
by some suffix `d` and the placeholder tokens of the produced text are
exactly (as a multiset) the positions of `d` in the extended accumulator. -/
def RenderOk (vals : List PyVal) (t : String) (vals2 : List PyVal) : Prop :=
  ∃ d, vals2 = vals ++ d ∧
    List.Perm (toksS t) (List.range' (vals.length + 1) d.length)

/-- A successful multi-piece render: the accumulator is extended and the
pieces number contiguously in order. -/
def PiecesOk (vals : List PyVal) (ps : List String) (vals2 : List PyVal) : Prop :=
  ∃ d, vals2 = vals ++ d ∧ Contig vals.length ps vals2.length

/-- Specification of `placeholderF` at a given fuel. -/
def PlSpec (fuel : Nat) : Prop :=
  ∀ v vals t vals2, placeholderF fuel v vals = .ok (t, vals2) → DFVal v →
    RenderOk vals t vals2

/-- Specification of `kwEntryF` at a given fuel. -/
def KwEntrySpec (fuel : Nat) : Prop :=
  ∀ key v vals t vals2, kwEntryF fuel key v vals = .ok (t, vals2) →
    noDollar key → DFVal v → RenderOk vals t vals2

/-- Specification of `kwsF` at a given fuel. -/
def KwsSpec (fuel : Nat) : Prop :=
  ∀ kws vals ps vals2, kwsF fuel kws vals = .ok (ps, vals2) →
    (∀ p ∈ kws, noDollar p.1 ∧ DFVal p.2) → PiecesOk vals ps vals2

/-- Specification of `argsF` at a given fuel. -/
def ArgsSpec (fuel : Nat) : Prop :=
  ∀ args vals ps vals2, argsF fuel args vals = .ok (ps, vals2) →
    (∀ a ∈ args, DFArg a) → PiecesOk vals ps vals2

/-- Specification of `qRenderF` at a given fuel. -/
def QSpec (fuel : Nat) : Prop :=
  ∀ q vals t vals2, qRenderF fuel q vals = .ok (t, vals2) → DFQ q →
    RenderOk vals t vals2

/-- Specification of `joinRenderF` at a given fuel. -/
def JoinSpec (fuel : Nat) : Prop :=
  ∀ j a vals t vals2, joinRenderF fuel j a vals = .ok (t, vals2) → DFJoin j →
    noDollar a → RenderOk vals t vals2

/-- Specification of `sourcesF` at a given fuel: the table renders are
dollar-free, subquery and join pieces start cleanly, and the tokens of the
subquery and join pieces jointly cover the appended positions. -/
def SourcesSpec (fuel : Nat) : Prop :=
  ∀ srcs vals tabs subs joins vals2,
    sourcesF fuel srcs vals = .ok (tabs, subs, joins, vals2) →
    (∀ p ∈ srcs, noDollar p.1 ∧ DFSource p.2) →
    ∃ d, vals2 = vals ++ d ∧ (∀ t2 ∈ tabs, noDollar t2) ∧
      (∀ s2 ∈ subs, headCleanS s2) ∧ (∀ j2 ∈ joins, headCleanS j2) ∧
      List.Perm (((subs ++ joins).map toksS).flatten)
        (List.range' (vals.length + 1) d.length)

/-- Specification of `condsF` at a given fuel. -/
def CondsSpec (fuel : Nat) : Prop :=
  ∀ conds vals ps vals2, condsF fuel conds vals = .ok (ps, vals2) →
    (∀ c ∈ conds, DFQ c) → PiecesOk vals ps vals2

/-- Specification of `sqlF` at a given fuel. -/
def SqlSpec (fuel : Nat) : Prop :=
  ∀ q vals t vals2, sqlF fuel q vals = .ok (t, vals2) → DFQuery q →
    RenderOk vals t vals2

/-- The table-list entry contributed to the FROM clause by one source, per
the specification: a plain table-name or table-ref source renders
`qualified AS "alias"` into the comma-separated base table list; other
sources do not contribute there. -/
def tableEntryOf : (String × DataSource) → Option String
  | (a, .table t) => some (t ++ " AS \"" ++ a ++ "\"")
  | (a, .modelRef m) => some (m ++ " AS \"" ++ a ++ "\"")
  | (_, .sub _) => none
  | (_, .joinSrc _) => none

/-- The aliased nested-Query sources of a source list, in insertion order. -/
def subSrcOf : (String × DataSource) → Option (String × Query)
  | (a, .sub q) => some (a, q)
  | _ => none

/-- The aliased Join sources of a source list, in insertion order. -/
def joinSrcOf : (String × DataSource) → Option (String × Join)
  | (a, .joinSrc j) => some (a, j)
  | _ => none

/-- Sources that contribute no bound values: plain table names and table
refs. -/
def plainSource : DataSource → Prop
  | .table _ => True
  | .modelRef _ => True
  | .sub _ => False
  | .joinSrc _ => False

/-- Structural invariant for lines produced by `splitAfterNl`: every line is
nonempty and every non-final line ends with a newline. -/
def LinesInv : List (List Char) → Prop
  | [] => True
  | [p] => p ≠ []
  | p :: ps => p ≠ [] ∧ p.getLast? = some '\n' ∧ LinesInv ps

instance (l : List Char) : Decidable (headClean l) :=
  match l with
  | [] => isFalse (fun h => h)
  | c :: _ => if h : c.isDigit then isFalse (fun hh => hh h) else isTrue h

instance (s : String) : Decidable (headCleanS s) :=
  inferInstanceAs (Decidable (headClean s.data))

instance (s : String) : Decidable (noDollar s) :=
  inferInstanceAs (Decidable ('$' ∉ s.data))

theorem dataAppend (s t : String) : (s ++ t).data = s.data ++ t.data := by
  cases s
  cases t
  rfl

theorem dataMk (l : List Char) : (String.mk l).data = l := rfl

theorem phRun_cons (st : PhState) (c : Char) (cs : List Char) :
    phRun st (c :: cs) =
      ((phStep st c).1 ++ (phRun (phStep st c).2 cs).1,
       (phRun (phStep st c).2 cs).2) := rfl

theorem phRun_append (l1 l2 : List Char) (st : PhState) :
    phRun st (l1 ++ l2) =
      ((phRun st l1).1 ++ (phRun (phRun st l1).2 l2).1,
       (phRun (phRun st l1).2 l2).2) := by
  induction l1 generalizing st with
  | nil => simp [phRun]
  | cons c cs ih =>
    rw [List.cons_append, phRun_cons, phRun_cons, ih]
    simp [List.append_assoc]

theorem phRun_noDollar (l : List Char) (h : '$' ∉ l) : phRun none l = ([], none) := by
  induction l with
  | nil => rfl
  | cons c cs ih =>
    rw [List.mem_cons] at h
    push_neg at h
    have hc : ¬ (c = '$') := fun hh => h.1 (by rw [hh])
    simp [phRun, phStep, if_neg hc, ih h.2]

theorem phStep_clean (st : PhState) (c : Char) (h1 : ¬ c.isDigit) (h2 : c ≠ '$') :
    phStep st c = (flushPh st, none) := by
  cases st with
  | none => simp [phStep, h2, flushPh]
  | some p =>
    obtain ⟨n, seen⟩ := p
    cases seen <;> simp [phStep, h1, h2, flushPh]

theorem phStep_dollar (st : PhState) :
    phStep st '$' = (flushPh st, some (0, false)) := by
  cases st with
  | none => simp [phStep, flushPh]
  | some p =>
    obtain ⟨n, seen⟩ := p
    cases seen <;> simp [phStep, flushPh]

theorem phRun_lastClean (l : List Char) (c : Char) (st : PhState)
    (h1 : ¬ c.isDigit) (h2 : c ≠ '$') : (phRun st (l ++ [c])).2 = none := by
  rw [phRun_append]
  generalize (phRun st l).2 = st2
  simp [phRun, phStep_clean st2 c h1 h2]

theorem phRun_headClean (l : List Char) (st : PhState) (h : headClean l) :
    phRun st l = (flushPh st ++ (phRun none l).1, (phRun none l).2) := by
  cases l with
  | nil => exact absurd h (fun hh => hh)
  | cons c cs =>
    have hc : ¬ c.isDigit := h
    by_cases hd : c = '$'
    · subst hd
      rw [phRun_cons, phRun_cons, phStep_dollar st, phStep_dollar none]
      simp [flushPh]
    · rw [phRun_cons, phRun_cons, phStep_clean st c hc hd, phStep_clean none c hc hd]
      simp [flushPh]

theorem toks_append_left (l1 l2 : List Char) (h : (phRun none l1).2 = none) :
    toks (l1 ++ l2) = toks l1 ++ toks l2 := by
  unfold toks
  rw [phRun_append, h]
  simp [flushPh, List.append_assoc]

theorem toks_append_head (l1 l2 : List Char) (h : headClean l2) :
    toks (l1 ++ l2) = toks l1 ++ toks l2 := by
  unfold toks
  rw [phRun_append, phRun_headClean l2 _ h]
  simp [List.append_assoc]

theorem toks_noDollar (l : List Char) (h : '$' ∉ l) : toks l = [] := by
  unfold toks
  rw [phRun_noDollar l h]
  rfl

theorem toksS_append_head (s t : String) (h : headCleanS t) :
    toksS (s ++ t) = toksS s ++ toksS t := by
  unfold toksS
  rw [dataAppend]
  exact toks_append_head _ _ h

theorem toksS_append_left (s t : String) (h : (phRun none s.data).2 = none) :
    toksS (s ++ t) = toksS s ++ toksS t := by
  unfold toksS
  rw [dataAppend]
  exact toks_append_left _ _ h

theorem toksS_noDollar (s : String) (h : noDollar s) : toksS s = [] :=
  toks_noDollar _ h

theorem toksS_append_nd (s t : String) (h : noDollar s) :
    toksS (s ++ t) = toksS t := by
  rw [toksS_append_left s t (by rw [phRun_noDollar _ h]), toksS_noDollar s h]
  simp

theorem noDollar_append (s t : String) (hs : noDollar s) (ht : noDollar t) :
    noDollar (s ++ t) := by
  unfold noDollar at *
  rw [dataAppend]
  simp only [List.mem_append]
  rintro (h | h)
  · exact hs h
  · exact ht h

theorem headCleanS_append_left (s t : String) (h : headCleanS s) :
    headCleanS (s ++ t) := by
  unfold headCleanS at *
  rw [dataAppend]
  cases hd : s.data with
  | nil => rw [hd] at h; exact absurd h (fun hh => hh)
  | cons c cs => rw [hd] at h; exact h

theorem stateNone_append (s t : String) (hh : headCleanS t)
    (h : (phRun none t.data).2 = none) : (phRun none (s ++ t).data).2 = none := by
  rw [dataAppend, phRun_append, phRun_headClean _ _ hh]
  exact h

theorem stateNone_noDollar (s : String) (h : noDollar s) :
    (phRun none s.data).2 = none := by
  rw [phRun_noDollar _ h]

theorem natDigitsRev_lt10 : ∀ fuel n, ∀ d ∈ natDigitsRev fuel n, d < 10 := by
  intro fuel
  induction fuel with
  | zero => intro n d hd; simp [natDigitsRev] at hd
  | succ f ih =>
    intro n d hd
    by_cases h : n < 10
    · simp [natDigitsRev, h] at hd
      omega
    · simp [natDigitsRev, h] at hd
      rcases hd with rfl | hd
      · exact Nat.mod_lt _ (by omega)
      · exact ih _ _ hd

theorem natDigitsRev_ne_nil (f n : Nat) : natDigitsRev (f+1) n ≠ [] := by
  by_cases h : n < 10 <;> simp [natDigitsRev, h]

theorem natDigitsRev_foldl : ∀ fuel n, n < fuel →
    (natDigitsRev fuel n).reverse.foldl (fun a d => a * 10 + d) 0 = n := by
  intro fuel
  induction fuel with
  | zero => intro n h; omega
  | succ f ih =>
    intro n h
    by_cases h10 : n < 10
    · simp [natDigitsRev, h10]
    · have hrec : n / 10 < f := by omega
      simp only [natDigitsRev, h10, if_false, List.reverse_cons]
      rw [List.foldl_append, ih (n / 10) hrec]
      simp
      omega

theorem phRun_digitChars : ∀ (ds : List Nat), (∀ d ∈ ds, d < 10) →
    ∀ (a : Nat) (seen : Bool),
    phRun (some (a, seen)) (ds.map (fun d => Char.ofNat (48 + d))) =
      ([], some (ds.foldl (fun x d => x * 10 + d) a, seen || !ds.isEmpty)) := by
  intro ds
  induction ds with
  | nil => intro _ a seen; simp [phRun]
  | cons d rest ih =>
    intro h a seen
    have hd : d < 10 := h d (by simp)
    have hdig : (Char.ofNat (48 + d)).isDigit = true := by interval_cases d <;> decide
    have hval : (Char.ofNat (48 + d)).toNat - 48 = d := by interval_cases d <;> decide
    simp only [List.map_cons, phRun, phStep, hdig, if_true, hval]
    rw [ih (fun x hx => h x (by simp [hx])) (a * 10 + d) true]
    simp

theorem phRun_natRepr (n : Nat) :
    phRun (some (0, false)) (natRepr n).data = ([], some (n, true)) := by
  unfold natRepr
  rw [dataMk]
  rw [phRun_digitChars _ (fun d hd => natDigitsRev_lt10 _ _ d (List.mem_reverse.mp hd)) 0 false]
  have h1 : (natDigitsRev (n+1) n).reverse.foldl (fun x d => x * 10 + d) 0 = n :=
    natDigitsRev_foldl (n+1) n (Nat.lt_succ_self n)
  have h2 : (natDigitsRev (n+1) n).reverse.isEmpty = false := by
    simp [List.isEmpty_iff, natDigitsRev_ne_nil]
  rw [h1, h2]
  rfl

theorem toksS_dollarNum (n : Nat) : toksS ("$" ++ natRepr n) = [n] := by
  unfold toksS toks
  rw [dataAppend]
  rw [show ("$" : String).data ++ (natRepr n).data = '$' :: (natRepr n).data from rfl]
  simp only [phRun, phStep_dollar]
  rw [phRun_natRepr n]
  rfl

theorem joinSep_toks (sep : String) (hh : headCleanS sep) (hnd : noDollar sep) :
    ∀ ps : List String, toksS (joinSep sep ps) = (ps.map toksS).flatten := by
  intro ps
  induction ps with
  | nil => rfl
  | cons s rest ih =>
    cases rest with
    | nil => simp [joinSep]
    | cons s2 r2 =>
      rw [show joinSep sep (s :: s2 :: r2) = s ++ (sep ++ joinSep sep (s2 :: r2)) from rfl]
      rw [toksS_append_head s _ (headCleanS_append_left sep _ hh)]
      rw [toksS_append_nd sep _ hnd, ih]
      simp

theorem joinSep_noDollar (sep : String) (hs : noDollar sep) :
    ∀ ps : List String, (∀ p ∈ ps, noDollar p) → noDollar (joinSep sep ps) := by
  intro ps
  induction ps with
  | nil =>
    intro _
    simp [joinSep, noDollar]
  | cons s rest ih =>
    intro h
    cases rest with
    | nil => exact h s (by simp)
    | cons s2 r2 =>
      rw [show joinSep sep (s :: s2 :: r2) = s ++ (sep ++ joinSep sep (s2 :: r2)) from rfl]
      exact noDollar_append _ _ (h s (by simp))
        (noDollar_append _ _ hs (ih (fun p hp => h p (by simp [hp]))))

theorem Contig.le {k : Nat} {ps : List String} {k2 : Nat} (h : Contig k ps k2) :
    k ≤ k2 := by
  induction h with
  | nil k => exact Nat.le_refl k
  | cons k s a rest k2 hs hrest ih => omega

theorem Contig.flatten_perm {k : Nat} {ps : List String} {k2 : Nat} (h : Contig k ps k2) :
    List.Perm ((ps.map toksS).flatten) (List.range' (k+1) (k2 - k)) := by
  induction h with
  | nil k => simp
  | cons k s a rest k2 hs hrest ih =>
    simp only [List.map_cons, List.flatten_cons]
    have hle : k + a ≤ k2 := hrest.le
    have hperm := List.Perm.append hs ih
    rw [show k + a + 1 = k + 1 + a by omega] at hperm
    rw [List.range'_append_1] at hperm
    rw [show k2 - (k + a) + a = k2 - k by omega] at hperm
    exact hperm

theorem splitAfterNl_inv (l : List Char) : LinesInv (splitAfterNl l) := by
  induction l with
  | nil => trivial
  | cons c cs ih =>
    simp only [splitAfterNl]
    cases hs : splitAfterNl cs with
    | nil => simp [LinesInv]
    | cons p ps =>
      rw [hs] at ih
      by_cases hc : c = '\n'
      · subst hc
        simp only [if_pos rfl]
        exact ⟨by simp, by simp, ih⟩
      · simp only [if_neg hc]
        cases ps with
        | nil => simp [LinesInv]
        | cons q qs =>
          obtain ⟨hne, hlast, hinv⟩ := ih
          refine ⟨by simp, ?_, hinv⟩
          cases p with
          | nil => exact absurd rfl hne
          | cons x xs => simpa using hlast

theorem splitAfterNl_flatten (l : List Char) : (splitAfterNl l).flatten = l := by
  induction l with
  | nil => rfl
  | cons c cs ih =>
    simp only [splitAfterNl]
    cases hs : splitAfterNl cs with
    | nil =>
      rw [hs] at ih
      simp only [List.flatten_nil] at ih
      simp [← ih]
    | cons p ps =>
      rw [hs] at ih
      by_cases hc : c = '\n'
      · subst hc
        simp only [if_pos rfl, List.flatten_cons] at *
        simp [ih]
      · simp only [if_neg hc, List.flatten_cons] at *
        simp [ih]

theorem prefLine_toks (p : List Char) : toks (prefLine p) = toks p := by
  unfold prefLine
  split
  · rfl
  · show toks ([' ', ' '] ++ p) = toks p
    rw [toks_append_left [' ', ' '] p (by decide)]
    rw [show toks [' ', ' '] = [] from by decide]
    simp

theorem prefLine_getLast (p : List Char) (h : p ≠ []) :
    (prefLine p).getLast? = p.getLast? := by
  unfold prefLine
  split
  · rfl
  · cases p with
    | nil => exact absurd rfl h
    | cons x xs => simp [List.getLast?_cons_cons]

theorem stateNone_of_lastNl (p : List Char) (st : PhState) (h : p.getLast? = some '\n') :
    (phRun st p).2 = none := by
  obtain ⟨l, rfl⟩ : ∃ l, p = l ++ ['\n'] := by
    rcases p.eq_nil_or_concat with rfl | ⟨l, c, rfl⟩
    · simp at h
    · rw [List.concat_eq_append] at h ⊢
      rw [List.getLast?_concat] at h
      obtain rfl : c = '\n' := by injection h
      exact ⟨l, rfl⟩
  exact phRun_lastClean l '\n' st (by decide) (by decide)

theorem toks_lines (ls : List (List Char)) (h : LinesInv ls) :
    toks (ls.map prefLine).flatten = toks ls.flatten := by
  induction ls with
  | nil => rfl
  | cons p ps ih =>
    cases ps with
    | nil =>
      simp only [List.map_cons, List.map_nil, List.flatten_cons, List.flatten_nil,
        List.append_nil]
      exact prefLine_toks p
    | cons q qs =>
      obtain ⟨hne, hlast, hinv⟩ := h
      simp only [List.map_cons, List.flatten_cons]
      rw [toks_append_left (prefLine p) _
        (stateNone_of_lastNl _ none (by rw [prefLine_getLast p hne]; exact hlast))]
      rw [toks_append_left p _ (stateNone_of_lastNl _ none hlast)]
      rw [prefLine_toks p]
      have := ih hinv
      simp only [List.map_cons, List.flatten_cons] at this
      rw [this]

theorem toksS_indent2 (s : String) : toksS (indent2 s) = toksS s := by
  unfold toksS indent2
  rw [dataMk]
  rw [toks_lines _ (splitAfterNl_inv s.data), splitAfterNl_flatten]

theorem indent2_headClean (s : String) (h : headCleanS s) : headCleanS (indent2 s) := by
  unfold headCleanS indent2 at *
  rw [dataMk]
  cases hd : s.data with
  | nil => rw [hd] at h; exact absurd h (fun x => x)
  | cons c cs =>
    rw [hd] at h
    have hcd : ¬ c.isDigit := h
    have hsp : ¬ (' '.isDigit = true) := by decide
    simp only [splitAfterNl]
    cases hs : splitAfterNl cs with
    | nil =>
      simp only [List.map_cons, List.map_nil, List.flatten_cons, List.flatten_nil,
        List.append_nil]
      unfold prefLine
      split
      · exact hcd
      · exact hsp
    | cons p ps =>
      by_cases hc : c = '\n'
      · subst hc
        simp only [eq_self_iff_true, if_true, List.map_cons, List.flatten_cons]
        rw [show prefLine ['\n'] = ['\n'] from rfl]
        exact hcd
      · simp only [if_neg hc, List.map_cons, List.flatten_cons]
        unfold prefLine
        split
        · exact hcd
        · exact hsp

theorem splitUU_chars (l : List Char) : ∀ p ∈ splitUU l, ∀ c ∈ p, c ∈ l := by
  induction l using splitUU.induct with
  | case1 =>
    intro p hp c hc
    simp [splitUU] at hp
    subst hp
    simp at hc
  | case2 rest ih =>
    intro p hp c hc
    simp only [splitUU, List.mem_cons] at hp
    rcases hp with rfl | hp
    · simp at hc
    · simp [ih p hp c hc]
  | case3 c0 rest hne hnil ih =>
    intro p hp c hc
    simp only [splitUU] at hp
    rw [hnil] at hp
    simp at hp
    subst hp
    rcases List.mem_cons.mp hc with rfl | hc2
    · simp
    · simp at hc2
  | case4 c0 rest hne q qs hcons ih =>
    intro p hp c hc
    simp only [splitUU] at hp
    rw [hcons] at hp
    simp only [List.mem_cons] at hp
    rcases hp with rfl | hp
    · rcases List.mem_cons.mp hc with rfl | hc2
      · simp
      · have := ih q (by rw [hcons]; simp) c hc2
        simp [this]
    · have := ih p (by rw [hcons]; simp [hp]) c hc
      simp [this]

theorem splitLookup_noDollar (key tab col lk : String)
    (h : splitLookup key = .ok (tab, col, lk)) (hk : noDollar key) :
    noDollar tab ∧ noDollar col := by
  have hnd : ∀ s ∈ (splitUU key.data).map (fun l => (⟨l⟩ : String)), noDollar s := by
    intro s hsm
    simp only [List.mem_map] at hsm
    obtain ⟨p, hp, rfl⟩ := hsm
    intro hc
    exact hk (splitUU_chars _ p hp '$' hc)
  unfold splitLookup at h
  cases hm : (splitUU key.data).map (fun l => (⟨l⟩ : String)) with
  | nil => rw [hm] at h; exact absurd h (by simp)
  | cons a rest =>
    rw [hm] at hnd
    cases rest with
    | nil =>
      rw [hm] at h
      simp only [Except.ok.injEq, Prod.mk.injEq] at h
      obtain ⟨rfl, rfl, rfl⟩ := h
      exact ⟨by decide, hnd a (by simp)⟩
    | cons b rest2 =>
      cases rest2 with
      | nil =>
        rw [hm] at h
        by_cases hb : lookupKeywords.contains b
        · simp only [hb, if_true, Except.ok.injEq, Prod.mk.injEq] at h
          obtain ⟨rfl, rfl, rfl⟩ := h
          exact ⟨by decide, hnd a (by simp)⟩
        · simp only [hb, Bool.false_eq_true, if_false, Except.ok.injEq, Prod.mk.injEq] at h
          obtain ⟨rfl, rfl, rfl⟩ := h
          exact ⟨hnd a (by simp), hnd b (by simp)⟩
      | cons c2 rest3 =>
        cases rest3 with
        | nil =>
          rw [hm] at h
          simp only [Except.ok.injEq, Prod.mk.injEq] at h
          obtain ⟨rfl, rfl, rfl⟩ := h
          exact ⟨hnd a (by simp), hnd b (by simp)⟩
        | cons d rest4 =>
          rw [hm] at h
          exact absurd h (by simp)

theorem colRender_noDollar (t c : String) (ht : noDollar t) (hc : noDollar c) :
    noDollar (colRender t c) := by
  unfold colRender
  split
  · exact noDollar_append _ _
      (noDollar_append _ _
        (noDollar_append _ _ (noDollar_append _ _ (by decide) ht) (by decide)) hc)
      (by decide)
  · exact noDollar_append _ _ (noDollar_append _ _ (by decide) hc) (by decide)

theorem toksS_parenSub (sub : String) : toksS ("(\n" ++ indent2 sub ++ "\n)") = toksS sub := by
  rw [toksS_append_head _ "\n)" (by decide)]
  rw [toksS_append_nd "(\n" _ (by decide)]
  rw [toksS_indent2]
  rw [toksS_noDollar "\n)" (by decide)]
  simp

theorem stateNone_parenSub (sub : String) :
    (phRun none ("(\n" ++ indent2 sub ++ "\n)").data).2 = none :=
  stateNone_append _ "\n)" (by decide) (by decide)

theorem headCleanS_parenSub (sub : String) : headCleanS ("(\n" ++ indent2 sub ++ "\n)") :=
  headCleanS_append_left _ _ (headCleanS_append_left "(\n" _ (by decide))

theorem plStep (f : Nat) (hSql : SqlSpec f) : PlSpec (f+1) := by
  intro v vals t vals2 h hdf
  cases v
  case vQuery q =>
    simp only [placeholderF] at h
    cases hq : sqlF f q vals with
    | error e => rw [hq] at h; exact absurd h (by simp)
    | ok pr =>
      obtain ⟨sub, vs⟩ := pr
      rw [hq] at h
      simp only [Except.ok.injEq, Prod.mk.injEq] at h
      obtain ⟨h1, h2⟩ := h
      subst h1
      subst h2
      cases hdf with
      | vQuery q hq2 =>
        obtain ⟨d, rfl, hperm⟩ := hSql q vals _ _ hq hq2
        exact ⟨d, rfl, by rw [toksS_parenSub]; exact hperm⟩
  case vExp e =>
    simp only [placeholderF] at h
    simp only [Except.ok.injEq, Prod.mk.injEq] at h
    obtain ⟨h1, h2⟩ := h
    subst h1
    subst h2
    cases hdf with
    | vExp e he =>
      exact ⟨[], by simp, by rw [toksS_noDollar e he]; simp⟩
  all_goals
    simp only [placeholderF] at h
    simp only [Except.ok.injEq, Prod.mk.injEq] at h
    obtain ⟨h1, h2⟩ := h
    subst h1
    subst h2
    refine ⟨_, rfl, ?_⟩
    rw [toksS_dollarNum]
    simp only [List.length_cons, List.length_nil, List.range'_one]
    exact List.Perm.refl _

theorem toksS_sandwich1 (a mid x : String) (ha : noDollar a) (hm : noDollar mid)
    (hh : headCleanS mid) (hst : (phRun none mid.data).2 = none) :
    toksS (a ++ mid ++ x) = toksS x := by
  rw [toksS_append_left _ x (stateNone_append a mid hh hst)]
  rw [toksS_noDollar _ (noDollar_append a mid ha hm)]
  simp

theorem toksS_tail (x tail : String) (hh : headCleanS tail) (hnd : noDollar tail) :
    toksS (x ++ tail) = toksS x := by
  rw [toksS_append_head x tail hh, toksS_noDollar tail hnd]
  simp

theorem toksS_between (colS p1 p2 : String) (hcol : noDollar colS) :
    toksS (colS ++ " BETWEEN " ++ p1 ++ " AND " ++ p2) = toksS p1 ++ toksS p2 := by
  rw [toksS_append_left _ p2 (stateNone_append _ " AND " (by decide) (by decide))]
  rw [toksS_tail _ " AND " (by decide) (by decide)]
  rw [toksS_sandwich1 colS " BETWEEN " p1 hcol (by decide) (by decide) (by decide)]

theorem RenderOk.congr {vals vals2 : List PyVal} {t t2 : String}
    (h : RenderOk vals t vals2) (he : toksS t2 = toksS t) : RenderOk vals t2 vals2 := by
  obtain ⟨d, rfl, hp⟩ := h
  exact ⟨d, rfl, he ▸ hp⟩

theorem RenderOk.empty {vals : List PyVal} {t : String} (h : toksS t = []) :
    RenderOk vals t vals := ⟨[], by simp, by rw [h]; simp⟩

theorem RenderOk.seq {vals v1 v2 : List PyVal} {t1 t2 : String}
    (h1 : RenderOk vals t1 v1) (h2 : RenderOk v1 t2 v2) :
    ∃ d, v2 = vals ++ d ∧
      List.Perm (toksS t1 ++ toksS t2) (List.range' (vals.length + 1) d.length) := by
  obtain ⟨d1, rfl, hp1⟩ := h1
  obtain ⟨d2, rfl, hp2⟩ := h2
  refine ⟨d1 ++ d2, by simp, ?_⟩
  have hperm := List.Perm.append hp1 hp2
  rw [List.length_append] at hperm
  rw [show vals.length + d1.length + 1 = vals.length + 1 + d1.length by omega] at hperm
  rw [List.range'_append_1] at hperm
  rw [List.length_append]
  rw [show d1.length + d2.length = d2.length + d1.length by omega]
  exact hperm

theorem renderOk_piece1 (colS mid : String) (hcol : noDollar colS) (hm : noDollar mid)
    (hh : headCleanS mid) (hst : (phRun none mid.data).2 = none)
    {vals v1 : List PyVal} {ph : String} (hro : RenderOk vals ph v1) :
    RenderOk vals (colS ++ mid ++ ph) v1 :=
  hro.congr (toksS_sandwich1 colS mid ph hcol hm hh hst)

theorem renderOk_anyCast (colS typ : String) (hcol : noDollar colS) (htyp : noDollar typ)
    (hht : headCleanS typ)
    {vals v1 : List PyVal} {ph : String} (hro : RenderOk vals ph v1) :
    RenderOk vals (colS ++ " = any(" ++ ph ++ "::" ++ typ ++ "[])") v1 :=
  (((renderOk_piece1 colS " = any(" hcol (by decide) (by decide) (by decide) hro).congr
      (toksS_tail _ "::" (by decide) (by decide))).congr
      (toksS_tail _ typ hht htyp)).congr
      (toksS_tail _ "[])" (by decide) (by decide))

theorem kwEntryStep (f : Nat) (hPl : PlSpec f) : KwEntrySpec (f+1) := by
  intro key v vals t vals2 h hkey hdf
  simp only [kwEntryF] at h
  cases hsp : splitLookup key with
  | error e => rw [hsp] at h; exact absurd h (by simp)
  | ok trip =>
    obtain ⟨tab, colName, lk⟩ := trip
    rw [hsp] at h
    have hcol : noDollar (colRender tab colName) :=
      colRender_noDollar _ _ (splitLookup_noDollar key tab colName lk hsp hkey).1
        (splitLookup_noDollar key tab colName lk hsp hkey).2
    simp only [] at h
    split at h
    -- lookup = ""
    · cases hph : placeholderF f v vals with
      | error e => rw [hph] at h; exact absurd h (by simp)
      | ok pr =>
        obtain ⟨ph, v1⟩ := pr
        rw [hph] at h
        simp only [Except.ok.injEq, Prod.mk.injEq] at h
        obtain ⟨h1, h2⟩ := h
        subst h1
        subst h2
        exact renderOk_piece1 _ " = " hcol (by decide) (by decide) (by decide)
          (hPl v vals ph _ hph hdf)
    -- contains
    · cases hph : placeholderF f v vals with
      | error e => rw [hph] at h; exact absurd h (by simp)
      | ok pr =>
        obtain ⟨ph, v1⟩ := pr
        rw [hph] at h
        simp only [Except.ok.injEq, Prod.mk.injEq] at h
        obtain ⟨h1, h2⟩ := h
        subst h1
        subst h2
        exact (renderOk_piece1 _ " LIKE '%' || " hcol (by decide) (by decide) (by decide)
          (hPl v vals ph _ hph hdf)).congr (toksS_tail _ " || '%'" (by decide) (by decide))
    -- startswith
    · cases hph : placeholderF f v vals with
      | error e => rw [hph] at h; exact absurd h (by simp)
      | ok pr =>
        obtain ⟨ph, v1⟩ := pr
        rw [hph] at h
        simp only [Except.ok.injEq, Prod.mk.injEq] at h
        obtain ⟨h1, h2⟩ := h
        subst h1
        subst h2
        exact (renderOk_piece1 _ " LIKE " hcol (by decide) (by decide) (by decide)
          (hPl v vals ph _ hph hdf)).congr (toksS_tail _ " || '%'" (by decide) (by decide))
    -- endswith
    · cases hph : placeholderF f v vals with
      | error e => rw [hph] at h; exact absurd h (by simp)
      | ok pr =>
        obtain ⟨ph, v1⟩ := pr
        rw [hph] at h
        simp only [Except.ok.injEq, Prod.mk.injEq] at h
        obtain ⟨h1, h2⟩ := h
        subst h1
        subst h2
        exact renderOk_piece1 _ " LIKE '%' || " hcol (by decide) (by decide) (by decide)
          (hPl v vals ph _ hph hdf)
    -- range
    · split at h
      case _ a b =>
        cases hp1 : placeholderF f a vals with
        | error e => rw [hp1] at h; exact absurd h (by simp)
        | ok pr1 =>
          obtain ⟨p1, v1⟩ := pr1
          rw [hp1] at h
          simp only [] at h
          cases hp2 : placeholderF f b v1 with
          | error e => rw [hp2] at h; exact absurd h (by simp)
          | ok pr2 =>
            obtain ⟨p2, v2⟩ := pr2
            rw [hp2] at h
            simp only [Except.ok.injEq, Prod.mk.injEq] at h
            obtain ⟨h1, h2⟩ := h
            subst h1
            subst h2
            have hdfa : DFVal a := by
              cases hdf with
              | vList xs hall => exact hall a (by simp)
            have hdfb : DFVal b := by
              cases hdf with
              | vList xs hall => exact hall b (by simp)
            obtain ⟨d, rfl, hperm⟩ :=
              RenderOk.seq (hPl a vals p1 _ hp1 hdfa) (hPl b v1 p2 _ hp2 hdfb)
            exact ⟨d, rfl, by rw [toksS_between _ _ _ hcol]; exact hperm⟩
      case _ a b =>
        cases hp1 : placeholderF f a vals with
        | error e => rw [hp1] at h; exact absurd h (by simp)
        | ok pr1 =>
          obtain ⟨p1, v1⟩ := pr1
          rw [hp1] at h
          simp only [] at h
          cases hp2 : placeholderF f b v1 with
          | error e => rw [hp2] at h; exact absurd h (by simp)
          | ok pr2 =>
            obtain ⟨p2, v2⟩ := pr2
            rw [hp2] at h
            simp only [Except.ok.injEq, Prod.mk.injEq] at h
            obtain ⟨h1, h2⟩ := h
            subst h1
            subst h2
            have hdfa : DFVal a := by
              cases hdf with
              | vTuple xs hall => exact hall a (by simp)
            have hdfb : DFVal b := by
              cases hdf with
              | vTuple xs hall => exact hall b (by simp)
            obtain ⟨d, rfl, hperm⟩ :=
              RenderOk.seq (hPl a vals p1 _ hp1 hdfa) (hPl b v1 p2 _ hp2 hdfb)
            exact ⟨d, rfl, by rw [toksS_between _ _ _ hcol]; exact hperm⟩
      case _ a b =>
        cases hp1 : placeholderF f a vals with
        | error e => rw [hp1] at h; exact absurd h (by simp)
        | ok pr1 =>
          obtain ⟨p1, v1⟩ := pr1
          rw [hp1] at h
          simp only [] at h
          cases hp2 : placeholderF f b v1 with
          | error e => rw [hp2] at h; exact absurd h (by simp)
          | ok pr2 =>
            obtain ⟨p2, v2⟩ := pr2
            rw [hp2] at h
            simp only [Except.ok.injEq, Prod.mk.injEq] at h
            obtain ⟨h1, h2⟩ := h
            subst h1
            subst h2
            have hdfa : DFVal a := by
              cases hdf with
              | vSet xs hall => exact hall a (by simp)
            have hdfb : DFVal b := by
              cases hdf with
              | vSet xs hall => exact hall b (by simp)
            obtain ⟨d, rfl, hperm⟩ :=
              RenderOk.seq (hPl a vals p1 _ hp1 hdfa) (hPl b v1 p2 _ hp2 hdfb)
            exact ⟨d, rfl, by rw [toksS_between _ _ _ hcol]; exact hperm⟩
      case _ => exact absurd h (by simp)
    -- in
    · split at h
      -- nested Query value
      · split at h
        · exact absurd h (by simp)
        · rename_i ph v1 heq
          simp only [Except.ok.injEq, Prod.mk.injEq] at h
          obtain ⟨h1, h2⟩ := h
          subst h1
          subst h2
          exact renderOk_piece1 _ " IN " hcol (by decide) (by decide) (by decide)
            (hPl _ _ _ _ heq hdf)
      -- list value
      · split at h
        · exact absurd h (by simp)
        · rename_i item rest
          cases item
          case vNone => exact absurd h (by simp)
          case vList _ => exact absurd h (by simp)
          case vTuple _ => exact absurd h (by simp)
          case vSet _ => exact absurd h (by simp)
          case vDict _ => exact absurd h (by simp)
          case vQuery _ => exact absurd h (by simp)
          case vExp _ => exact absurd h (by simp)
          all_goals
            split at h
            · exact absurd h (by simp)
            · rename_i typ heq2
              injection heq2 with htyp
              subst htyp
              split at h
              · exact absurd h (by simp)
              · rename_i ph v1 heq
                simp only [Except.ok.injEq, Prod.mk.injEq] at h
                obtain ⟨h1, h2⟩ := h
                subst h1
                subst h2
                exact renderOk_anyCast _ _ hcol (by decide) (by decide)
                  (hPl _ _ _ _ heq hdf)
      -- tuple value
      · split at h
        · exact absurd h (by simp)
        · rename_i item rest
          cases item
          case vNone => exact absurd h (by simp)
          case vList _ => exact absurd h (by simp)
          case vTuple _ => exact absurd h (by simp)
          case vSet _ => exact absurd h (by simp)
          case vDict _ => exact absurd h (by simp)
          case vQuery _ => exact absurd h (by simp)
          case vExp _ => exact absurd h (by simp)
          all_goals
            split at h
            · exact absurd h (by simp)
            · rename_i typ heq2
              injection heq2 with htyp
              subst htyp
              split at h
              · exact absurd h (by simp)
              · rename_i ph v1 heq
                simp only [Except.ok.injEq, Prod.mk.injEq] at h
                obtain ⟨h1, h2⟩ := h
                subst h1
                subst h2
                exact renderOk_anyCast _ _ hcol (by decide) (by decide)
                  (hPl _ _ _ _ heq hdf)
      -- set value
      · split at h
        · exact absurd h (by simp)
        · rename_i item rest
          cases item
          case vNone => exact absurd h (by simp)
          case vList _ => exact absurd h (by simp)
          case vTuple _ => exact absurd h (by simp)
          case vSet _ => exact absurd h (by simp)
          case vDict _ => exact absurd h (by simp)
          case vQuery _ => exact absurd h (by simp)
          case vExp _ => exact absurd h (by simp)
          all_goals
            split at h
            · exact absurd h (by simp)
            · rename_i typ heq2
              injection heq2 with htyp
              subst htyp
              split at h
              · exact absurd h (by simp)
              · rename_i ph v1 heq
                simp only [Except.ok.injEq, Prod.mk.injEq] at h
                obtain ⟨h1, h2⟩ := h
                subst h1
                subst h2
                exact renderOk_anyCast _ _ hcol (by decide) (by decide)
                  (hPl _ _ _ _ heq hdf)
      -- any other value kind
      · exact absurd h (by simp)
    -- isnull
    · split at h
      · simp only [Except.ok.injEq, Prod.mk.injEq] at h
        obtain ⟨h1, h2⟩ := h
        subst h1
        subst h2
        exact RenderOk.empty (toksS_noDollar _ (noDollar_append _ _ hcol (by decide)))
      · simp only [Except.ok.injEq, Prod.mk.injEq] at h
        obtain ⟨h1, h2⟩ := h
        subst h1
        subst h2
        exact RenderOk.empty (toksS_noDollar _ (noDollar_append _ _ hcol (by decide)))
    -- gte
    · split at h
      · exact absurd h (by simp)
      · rename_i ph v1 heq
        simp only [Except.ok.injEq, Prod.mk.injEq] at h
        obtain ⟨h1, h2⟩ := h
        subst h1
        subst h2
        exact renderOk_piece1 _ " >= " hcol (by decide) (by decide) (by decide)
          (hPl _ _ _ _ heq hdf)
    -- lte
    · split at h
      · exact absurd h (by simp)
      · rename_i ph v1 heq
        simp only [Except.ok.injEq, Prod.mk.injEq] at h
        obtain ⟨h1, h2⟩ := h
        subst h1
        subst h2
        exact renderOk_piece1 _ " <= " hcol (by decide) (by decide) (by decide)
          (hPl _ _ _ _ heq hdf)
    -- gt
    · split at h
      · exact absurd h (by simp)
      · rename_i ph v1 heq
        simp only [Except.ok.injEq, Prod.mk.injEq] at h
        obtain ⟨h1, h2⟩ := h
        subst h1
        subst h2
        exact renderOk_piece1 _ " > " hcol (by decide) (by decide) (by decide)
          (hPl _ _ _ _ heq hdf)
    -- lt
    · split at h
      · exact absurd h (by simp)
      · rename_i ph v1 heq
        simp only [Except.ok.injEq, Prod.mk.injEq] at h
        obtain ⟨h1, h2⟩ := h
        subst h1
        subst h2
        exact renderOk_piece1 _ " < " hcol (by decide) (by decide) (by decide)
          (hPl _ _ _ _ heq hdf)
    -- unsupported lookup
    · exact absurd h (by simp)

theorem Contig.append {k : Nat} {ps : List String} {k1 : Nat} {ps2 : List String} {k2 : Nat}
    (h1 : Contig k ps k1) (h2 : Contig k1 ps2 k2) : Contig k (ps ++ ps2) k2 := by
  induction h1 with
  | nil k => exact h2
  | cons k s a rest k1 hs hrest ih => exact Contig.cons _ _ _ _ _ hs (ih h2)

theorem toksS_binop (op lt rt : String) (hop : noDollar op) (hh : headCleanS op)
    (hst : (phRun none op.data).2 = none) :
    toksS ("(" ++ lt ++ op ++ rt ++ ")") = toksS lt ++ toksS rt := by
  rw [toksS_tail _ ")" (by decide) (by decide)]
  rw [toksS_append_left _ rt (stateNone_append _ op hh hst)]
  rw [toksS_tail _ op hh hop]
  rw [toksS_append_nd "(" lt (by decide)]

theorem kwsStep (f : Nat) (hKe : KwEntrySpec f) (hSelf : KwsSpec f) : KwsSpec (f+1) := by
  intro kws vals ps vals2 h hdf
  cases kws with
  | nil =>
    simp only [kwsF, Except.ok.injEq, Prod.mk.injEq] at h
    obtain ⟨h1, h2⟩ := h
    subst h1
    subst h2
    exact ⟨[], by simp, Contig.nil _⟩
  | cons kv rest =>
    obtain ⟨k, v⟩ := kv
    simp only [kwsF] at h
    split at h
    · exact absurd h (by simp)
    · rename_i piece v1 heq
      split at h
      · exact absurd h (by simp)
      · rename_i pieces v2 heq2
        simp only [Except.ok.injEq, Prod.mk.injEq] at h
        obtain ⟨h1, h2⟩ := h
        subst h1
        subst h2
        have hdk := hdf (k, v) (by simp)
        obtain ⟨d1, rfl, hp1⟩ := hKe k v vals piece v1 heq hdk.1 hdk.2
        obtain ⟨d2, rfl, hc⟩ := hSelf rest _ pieces v2 heq2 (fun p hp => hdf p (by simp [hp]))
        refine ⟨d1 ++ d2, by simp, ?_⟩
        refine Contig.cons _ _ d1.length _ _ hp1 ?_
        simpa [List.length_append] using hc

theorem PiecesOk.build {vals v1 vals2 : List PyVal} {piece : String} {pieces : List String}
    (h1 : RenderOk vals piece v1) (h2 : PiecesOk v1 pieces vals2) :
    PiecesOk vals (piece :: pieces) vals2 := by
  obtain ⟨d1, rfl, hp1⟩ := h1
  obtain ⟨d2, rfl, hc⟩ := h2
  refine ⟨d1 ++ d2, by simp, ?_⟩
  refine Contig.cons _ _ d1.length _ _ hp1 ?_
  simpa [List.length_append] using hc

theorem argsStep (f : Nat) (hQ : QSpec f) (hSelf : ArgsSpec f) : ArgsSpec (f+1) := by
  intro args vals ps vals2 h hdf
  cases args with
  | nil =>
    simp only [argsF, Except.ok.injEq, Prod.mk.injEq] at h
    obtain ⟨h1, h2⟩ := h
    subst h1
    subst h2
    exact ⟨[], by simp, Contig.nil _⟩
  | cons a rest =>
    have hda := hdf a (by simp)
    have hrest : ∀ a2 ∈ rest, DFArg a2 := fun a2 ha2 => hdf a2 (by simp [ha2])
    cases a with
    | qInvalid =>
      simp only [argsF] at h
      exact absurd h (by simp)
    | qOr l r =>
      simp only [argsF] at h
      split at h
      · exact absurd h (by simp)
      · rename_i piece v1 heq
        split at h
        · exact absurd h (by simp)
        · rename_i pieces v2 heq2
          simp only [Except.ok.injEq, Prod.mk.injEq] at h
          obtain ⟨h1, h2⟩ := h
          subst h1
          subst h2
          split at heq
          · exact absurd heq (by simp)
          · rename_i lt va heqL
            split at heq
            · exact absurd heq (by simp)
            · rename_i rt vb heqR
              simp only [Except.ok.injEq, Prod.mk.injEq] at heq
              obtain ⟨hq1, hq2⟩ := heq
              subst hq1
              subst hq2
              cases hda with
              | qOr l r hl hr =>
                have hro : RenderOk vals ("(" ++ lt ++ " OR " ++ rt ++ ")") vb := by
                  obtain ⟨d, rfl, hperm⟩ :=
                    RenderOk.seq (hQ l vals lt va heqL hl) (hQ r va rt vb heqR hr)
                  exact ⟨d, rfl, by
                    rw [toksS_binop " OR " lt rt (by decide) (by decide) (by decide)]
                    exact hperm⟩
                exact PiecesOk.build hro (hSelf rest _ pieces v2 heq2 hrest)
    | qAnd l r =>
      simp only [argsF] at h
      split at h
      · exact absurd h (by simp)
      · rename_i piece v1 heq
        split at h
        · exact absurd h (by simp)
        · rename_i pieces v2 heq2
          simp only [Except.ok.injEq, Prod.mk.injEq] at h
          obtain ⟨h1, h2⟩ := h
          subst h1
          subst h2
          split at heq
          · exact absurd heq (by simp)
          · rename_i lt va heqL
            split at heq
            · exact absurd heq (by simp)
            · rename_i rt vb heqR
              simp only [Except.ok.injEq, Prod.mk.injEq] at heq
              obtain ⟨hq1, hq2⟩ := heq
              subst hq1
              subst hq2
              cases hda with
              | qAnd l r hl hr =>
                have hro : RenderOk vals ("(" ++ lt ++ " AND " ++ rt ++ ")") vb := by
                  obtain ⟨d, rfl, hperm⟩ :=
                    RenderOk.seq (hQ l vals lt va heqL hl) (hQ r va rt vb heqR hr)
                  exact ⟨d, rfl, by
                    rw [toksS_binop " AND " lt rt (by decide) (by decide) (by decide)]
                    exact hperm⟩
                exact PiecesOk.build hro (hSelf rest _ pieces v2 heq2 hrest)
    | qNot q0 =>
      simp only [argsF] at h
      split at h
      · exact absurd h (by simp)
      · rename_i piece v1 heq
        split at h
        · exact absurd h (by simp)
        · rename_i pieces v2 heq2
          simp only [Except.ok.injEq, Prod.mk.injEq] at h
          obtain ⟨h1, h2⟩ := h
          subst h1
          subst h2
          split at heq
          · exact absurd heq (by simp)
          · rename_i t0 va heqN
            simp only [Except.ok.injEq, Prod.mk.injEq] at heq
            obtain ⟨hq1, hq2⟩ := heq
            subst hq1
            subst hq2
            cases hda with
            | qNot q0 h0 =>
              have hro : RenderOk vals ("NOT (" ++ t0 ++ ")") va := by
                refine (hQ q0 vals t0 va heqN h0).congr ?_
                rw [toksS_tail _ ")" (by decide) (by decide)]
                rw [toksS_append_nd "NOT (" t0 (by decide)]
              exact PiecesOk.build hro (hSelf rest _ pieces v2 heq2 hrest)

theorem qStep (f : Nat) (hArgs : ArgsSpec f) (hKws : KwsSpec f) : QSpec (f+1) := by
  intro q vals t vals2 h hdf
  cases q with
  | mk args kwargs =>
    simp only [qRenderF] at h
    split at h
    · exact absurd h (by simp)
    · rename_i cl1 v1 heq1
      split at h
      · exact absurd h (by simp)
      · rename_i cl2 v2 heq2
        simp only [Except.ok.injEq, Prod.mk.injEq] at h
        obtain ⟨h1, h2⟩ := h
        subst h1
        subst h2
        cases hdf with
        | mk args kwargs ha hk1 hk2 =>
          obtain ⟨d1, rfl, hc1⟩ := hArgs args vals cl1 v1 heq1 ha
          obtain ⟨d2, rfl, hc2⟩ := hKws kwargs _ cl2 v2 heq2 (fun p hp => ⟨hk1 p hp, hk2 p hp⟩)
          refine ⟨d1 ++ d2, by simp, ?_⟩
          rw [joinSep_toks " AND " (by decide) (by decide)]
          have hcat : Contig vals.length (cl1 ++ cl2) (vals ++ d1 ++ d2).length :=
            Contig.append hc1 hc2
          have hperm := hcat.flatten_perm
          rw [show (vals ++ d1 ++ d2).length - vals.length = (d1 ++ d2).length by
            simp [List.length_append]] at hperm
          simpa using hperm

theorem condsStep (f : Nat) (hQ : QSpec f) (hSelf : CondsSpec f) : CondsSpec (f+1) := by
  intro conds vals ps vals2 h hdf
  cases conds with
  | nil =>
    simp only [condsF, Except.ok.injEq, Prod.mk.injEq] at h
    obtain ⟨h1, h2⟩ := h
    subst h1
    subst h2
    exact ⟨[], by simp, Contig.nil _⟩
  | cons c rest =>
    simp only [condsF] at h
    split at h
    · exact absurd h (by simp)
    · rename_i piece v1 heq
      split at h
      · exact absurd h (by simp)
      · rename_i pieces v2 heq2
        simp only [Except.ok.injEq, Prod.mk.injEq] at h
        obtain ⟨h1, h2⟩ := h
        subst h1
        subst h2
        obtain ⟨d1, rfl, hp1⟩ := hQ c vals piece v1 heq (hdf c (by simp))
        obtain ⟨d2, rfl, hc⟩ := hSelf rest _ pieces v2 heq2 (fun p hp => hdf p (by simp [hp]))
        refine ⟨d1 ++ d2, by simp, ?_⟩
        refine Contig.cons _ _ d1.length _ _ hp1 ?_
        simpa [List.length_append] using hc

theorem toksS_onJoin (jt source a ct : String) (hjt : noDollar jt) (ha : noDollar a) :
    toksS (jt ++ " JOIN " ++ source ++ " AS \"" ++ a ++ "\" " ++ "ON (" ++ ct ++ ")")
      = toksS source ++ toksS ct := by
  rw [toksS_tail _ ")" (by decide) (by decide)]
  rw [toksS_append_left _ ct (stateNone_append _ "ON (" (by decide) (by decide))]
  rw [toksS_tail _ "ON (" (by decide) (by decide)]
  rw [toksS_tail _ "\" " (by decide) (by decide)]
  rw [toksS_append_left _ a (stateNone_append _ " AS \"" (by decide) (by decide))]
  rw [toksS_noDollar a ha]
  rw [toksS_tail _ " AS \"" (by decide) (by decide)]
  rw [toksS_append_left _ source (stateNone_noDollar _ (noDollar_append jt " JOIN " hjt (by decide)))]
  rw [toksS_noDollar _ (noDollar_append jt " JOIN " hjt (by decide))]
  simp

theorem toksS_usingJoin (jt source a us : String) (hjt : noDollar jt) (ha : noDollar a)
    (hus : noDollar us) :
    toksS (jt ++ " JOIN " ++ source ++ " AS \"" ++ a ++ "\" " ++ " USING (" ++ us ++ ")")
      = toksS source := by
  rw [toksS_tail _ ")" (by decide) (by decide)]
  rw [toksS_append_left _ us (stateNone_append _ " USING (" (by decide) (by decide))]
  rw [toksS_noDollar us hus]
  rw [toksS_tail _ " USING (" (by decide) (by decide)]
  rw [toksS_tail _ "\" " (by decide) (by decide)]
  rw [toksS_append_left _ a (stateNone_append _ " AS \"" (by decide) (by decide))]
  rw [toksS_noDollar a ha]
  rw [toksS_tail _ " AS \"" (by decide) (by decide)]
  rw [toksS_append_left _ source (stateNone_noDollar _ (noDollar_append jt " JOIN " hjt (by decide)))]
  rw [toksS_noDollar _ (noDollar_append jt " JOIN " hjt (by decide))]
  simp

theorem joinStep (f : Nat) (hSql : SqlSpec f) (hQ : QSpec f) : JoinSpec (f+1) := by
  intro j a vals t vals2 h hdf hnda
  cases j with
  | mk jt tgt onC usingC =>
    cases hdf with
    | mk jt tgt onC usingC hjt htgt hon hus =>
      simp only [joinRenderF] at h
      split at h
      · exact absurd h (by simp)
      · rename_i source v1 heqS
        have hsrcRO : RenderOk vals source v1 := by
          cases tgt with
          | table t2 =>
            split at heqS
            · rename_i t3 heq3
              injection heq3 with ht3
              subst ht3
              simp only [Except.ok.injEq, Prod.mk.injEq] at heqS
              obtain ⟨h1, h2⟩ := heqS
              subst h1
              subst h2
              cases htgt with
              | table t2 hnd => exact RenderOk.empty (toksS_noDollar _ hnd)
            · rename_i q2 hbad
              exact absurd hbad (by simp)
            · rename_i m hbad
              exact absurd hbad (by simp)
          | sub q =>
            split at heqS
            · rename_i t3 hbad
              exact absurd hbad (by simp)
            · rename_i q2 hq2
              injection hq2 with hq2e
              subst hq2e
              split at heqS
              · exact absurd heqS (by simp)
              · rename_i s2 vs heqQ
                simp only [Except.ok.injEq, Prod.mk.injEq] at heqS
                obtain ⟨h1, h2⟩ := heqS
                subst h1
                subst h2
                cases htgt with
                | sub q hq => exact (hSql q vals s2 _ heqQ hq).congr (toksS_parenSub s2)
            · rename_i m hbad
              exact absurd hbad (by simp)
          | modelRef m =>
            split at heqS
            · rename_i t3 hbad
              exact absurd hbad (by simp)
            · rename_i q2 hbad
              exact absurd hbad (by simp)
            · exact absurd heqS (by simp)
        cases onC with
        | some c =>
          split at h
          · rename_i c2 hc2
            injection hc2 with hc2e
            subst hc2e
            split at h
            · exact absurd h (by simp)
            · rename_i ct v2 heqC
              simp only [Except.ok.injEq, Prod.mk.injEq] at h
              obtain ⟨h1, h2⟩ := h
              subst h1
              subst h2
              obtain ⟨d, rfl, hperm⟩ :=
                RenderOk.seq hsrcRO (hQ c v1 ct v2 heqC (hon c (by simp)))
              exact ⟨d, rfl, by
                rw [toksS_onJoin jt source a ct hjt hnda]
                exact hperm⟩
          · rename_i hbad
            exact absurd hbad (by simp)
        | none =>
          split at h
          · rename_i c2 hbad
            exact absurd hbad (by simp)
          · simp only [Except.ok.injEq, Prod.mk.injEq] at h
            obtain ⟨h1, h2⟩ := h
            subst h1
            subst h2
            have hndu : noDollar (optStr usingC) := by
              cases usingC with
              | some s2 => exact hus s2 (by simp)
              | none => decide
            exact hsrcRO.congr (toksS_usingJoin jt source a _ hjt hnda hndu)

theorem toksS_subPiece (qt a : String) (ha : noDollar a) :
    toksS ("(\n" ++ indent2 qt ++ "\n) AS \"" ++ a ++ "\"") = toksS qt := by
  rw [toksS_tail _ "\"" (by decide) (by decide)]
  rw [toksS_append_left _ a (stateNone_append _ "\n) AS \"" (by decide) (by decide))]
  rw [toksS_noDollar a ha]
  rw [toksS_tail _ "\n) AS \"" (by decide) (by decide)]
  rw [toksS_append_nd "(\n" _ (by decide), toksS_indent2]
  simp

theorem headCleanS_subPiece (qt a : String) :
    headCleanS ("(\n" ++ indent2 qt ++ "\n) AS \"" ++ a ++ "\"") :=
  headCleanS_append_left _ _ (headCleanS_append_left _ _ (headCleanS_append_left _ _
    (headCleanS_append_left "(\n" _ (by decide))))

theorem perm_chunks1 {P AB : List Nat} {s n1 n2 : Nat}
    (hP : List.Perm P (List.range' (s+1) n1))
    (hAB : List.Perm AB (List.range' (s+1+n1) n2)) :
    List.Perm (P ++ AB) (List.range' (s+1) (n1 + n2)) := by
  have h2 := List.Perm.append hP hAB
  rw [List.range'_append_1] at h2
  rwa [Nat.add_comm n2 n1] at h2

theorem perm_chunks {A P B : List Nat} {s n1 n2 : Nat}
    (hP : List.Perm P (List.range' (s+1) n1))
    (hAB : List.Perm (A ++ B) (List.range' (s+1+n1) n2)) :
    List.Perm (A ++ (P ++ B)) (List.range' (s+1) (n1 + n2)) := by
  have h1 : List.Perm (A ++ (P ++ B)) (P ++ (A ++ B)) := by
    rw [← List.append_assoc, ← List.append_assoc]
    exact List.Perm.append_right B List.perm_append_comm
  exact h1.trans (perm_chunks1 hP hAB)

theorem sourcesStep (f : Nat) (hJoin : JoinSpec f) (hSql : SqlSpec f) (hSelf : SourcesSpec f) :
    SourcesSpec (f+1) := by
  intro srcs vals tabs subs joins vals2 h hdf
  cases srcs with
  | nil =>
    simp only [sourcesF, Except.ok.injEq, Prod.mk.injEq] at h
    obtain ⟨h1, h2, h3, h4⟩ := h
    subst h1
    subst h2
    subst h3
    subst h4
    exact ⟨[], by simp, by simp, by simp, by simp, by simp⟩
  | cons p rest =>
    obtain ⟨a, src⟩ := p
    have hda := hdf (a, src) (by simp)
    have hrest : ∀ p2 ∈ rest, noDollar p2.1 ∧ DFSource p2.2 := fun p2 hp2 => hdf p2 (by simp [hp2])
    cases src with
    | table t2 =>
      have ht2 : noDollar t2 := by
        cases hda.2 with
        | table _ hh => exact hh
      simp only [sourcesF] at h
      split at h
      · exact absurd h (by simp)
      · rename_i ts ss js v2 heqR
        simp only [Except.ok.injEq, Prod.mk.injEq] at h
        obtain ⟨h1, h2, h3, h4⟩ := h
        subst h1
        subst h2
        subst h3
        subst h4
        obtain ⟨d, rfl, htabs, hsubs, hjoins, hperm⟩ := hSelf rest vals ts ss js v2 heqR hrest
        refine ⟨d, rfl, ?_, hsubs, hjoins, hperm⟩
        intro t3 ht3
        rcases List.mem_cons.mp ht3 with rfl | ht3
        · exact noDollar_append _ _
            (noDollar_append _ _ (noDollar_append _ _ ht2 (by decide)) hda.1) (by decide)
        · exact htabs t3 ht3
    | modelRef m =>
      have hm : noDollar m := by
        cases hda.2 with
        | modelRef _ hh => exact hh
      simp only [sourcesF] at h
      split at h
      · exact absurd h (by simp)
      · rename_i ts ss js v2 heqR
        simp only [Except.ok.injEq, Prod.mk.injEq] at h
        obtain ⟨h1, h2, h3, h4⟩ := h
        subst h1
        subst h2
        subst h3
        subst h4
        obtain ⟨d, rfl, htabs, hsubs, hjoins, hperm⟩ := hSelf rest vals ts ss js v2 heqR hrest
        refine ⟨d, rfl, ?_, hsubs, hjoins, hperm⟩
        intro t3 ht3
        rcases List.mem_cons.mp ht3 with rfl | ht3
        · exact noDollar_append _ _
            (noDollar_append _ _ (noDollar_append _ _ hm (by decide)) hda.1) (by decide)
        · exact htabs t3 ht3
    | sub q =>
      have hdq : DFQuery q := by
        cases hda.2 with
        | sub _ hh => exact hh
      simp only [sourcesF] at h
      split at h
      · exact absurd h (by simp)
      · rename_i qt v1 heqQ
        split at h
        · exact absurd h (by simp)
        · rename_i ts ss js v2 heqR
          simp only [Except.ok.injEq, Prod.mk.injEq] at h
          obtain ⟨h1, h2, h3, h4⟩ := h
          subst h1
          subst h2
          subst h3
          subst h4
          obtain ⟨d1, rfl, hperm1⟩ := hSql q vals qt v1 heqQ hdq
          obtain ⟨d2, rfl, htabs, hsubs, hjoins, hperm2⟩ :=
            hSelf rest _ ts ss js v2 heqR hrest
          refine ⟨d1 ++ d2, by simp, htabs, ?_, hjoins, ?_⟩
          · intro s2 hs2
            rcases List.mem_cons.mp hs2 with rfl | hs2
            · exact headCleanS_subPiece qt a
            · exact hsubs s2 hs2
          · simp only [List.cons_append, List.map_cons, List.flatten_cons]
            rw [toksS_subPiece qt a hda.1]
            rw [show (d1 ++ d2).length = d1.length + d2.length from List.length_append d1 d2]
            refine perm_chunks1 hperm1 ?_
            rw [show vals.length + 1 + d1.length = (vals ++ d1).length + 1 by
              simp [List.length_append]; omega]
            exact hperm2
    | joinSrc j =>
      have hdj : DFJoin j := by
        cases hda.2 with
        | joinSrc _ hh => exact hh
      simp only [sourcesF] at h
      split at h
      · exact absurd h (by simp)
      · rename_i jt2 v1 heqJ
        split at h
        · exact absurd h (by simp)
        · rename_i ts ss js v2 heqR
          simp only [Except.ok.injEq, Prod.mk.injEq] at h
          obtain ⟨h1, h2, h3, h4⟩ := h
          subst h1
          subst h2
          subst h3
          subst h4
          obtain ⟨d1, rfl, hperm1⟩ := hJoin j a vals jt2 v1 heqJ hdj hda.1
          obtain ⟨d2, rfl, htabs, hsubs, hjoins, hperm2⟩ :=
            hSelf rest _ ts ss js v2 heqR hrest
          refine ⟨d1 ++ d2, by simp, htabs, hsubs, ?_, ?_⟩
          · intro j2 hj2
            rcases List.mem_cons.mp hj2 with rfl | hj2
            · exact indent2_headClean _ (headCleanS_append_left "\n" _ (by decide))
            · exact hjoins j2 hj2
          · simp only [List.map_append, List.flatten_append, List.map_cons, List.flatten_cons]
            rw [toksS_indent2, toksS_append_nd "\n" _ (by decide)]
            rw [show (d1 ++ d2).length = d1.length + d2.length from List.length_append d1 d2]
            refine perm_chunks hperm1 ?_
            rw [show vals.length + 1 + d1.length = (vals ++ d1).length + 1 by
              simp [List.length_append]; omega]
            simp only [List.map_append, List.flatten_append] at hperm2
            exact hperm2

theorem selRender_noDollar (s : String ⊕ (String × String)) (h : DFSel s) :
    noDollar (selRender s) := by
  cases s with
  | inl c => exact h
  | inr p =>
    obtain ⟨a, c⟩ := p
    exact noDollar_append _ _ (noDollar_append _ _ (noDollar_append _ _ h.2 (by decide)) h.1)
      (by decide)

theorem orderItem_noDollar (s : String) (h : noDollar s) : noDollar (orderItem s) := by
  unfold orderItem
  split
  · rename_i rest heq
    refine noDollar_append _ _ ?_ (by decide)
    intro hc
    exact h (by rw [heq]; simp [dataMk] at hc ⊢; exact hc)
  · exact h

theorem toksS_fromClause (tabs subs joins : List String)
    (htabs : ∀ t ∈ tabs, noDollar t) :
    toksS ("\nFROM " ++ joinSep ", " tabs ++ joinSep "\n" (subs ++ joins)) =
      ((subs ++ joins).map toksS).flatten := by
  have hnd1 : noDollar ("\nFROM " ++ joinSep ", " tabs) :=
    noDollar_append _ _ (by decide) (joinSep_noDollar ", " (by decide) tabs htabs)
  rw [toksS_append_left _ _ (stateNone_noDollar _ hnd1), toksS_noDollar _ hnd1]
  rw [joinSep_toks "\n" (by decide) (by decide)]
  simp

theorem toksS_dollarTail (pre : String) (n : Nat)
    (hpre : phRun none pre.data = ([], some (0, false))) :
    toksS (pre ++ natRepr n) = [n] := by
  unfold toksS toks
  rw [dataAppend, phRun_append, hpre]
  rw [phRun_natRepr n]
  rfl

theorem toksS_clauses (s1 s2 s3 s4 s5 s6 s7 : String)
    (h2 : headCleanS s2) (h3 : s3 = "" ∨ headCleanS s3) (h4 : s4 = "" ∨ headCleanS s4)
    (h5 : s5 = "" ∨ headCleanS s5) (h6 : s6 = "" ∨ headCleanS s6)
    (h7 : s7 = "" ∨ headCleanS s7) :
    toksS (s1 ++ s2 ++ s3 ++ s4 ++ s5 ++ s6 ++ s7) =
      toksS s1 ++ toksS s2 ++ toksS s3 ++ toksS s4 ++ toksS s5 ++ toksS s6 ++ toksS s7 := by
  have hsplit : ∀ x y : String, (y = "" ∨ headCleanS y) →
      toksS (x ++ y) = toksS x ++ toksS y := by
    intro x y hy
    rcases hy with rfl | hy
    · rw [show x ++ "" = x from by cases x; simp [String.instAppend, String.append]]
      rw [show toksS "" = [] from rfl]
      simp
    · exact toksS_append_head x y hy
  rw [hsplit _ s7 h7, hsplit _ s6 h6, hsplit _ s5 h5, hsplit _ s4 h4, hsplit _ s3 h3,
     toksS_append_head s1 s2 h2]

theorem perm_seq4 {A B C D : List Nat} {k a b c d : Nat}
    (hA : List.Perm A (List.range' (k+1) a))
    (hB : List.Perm B (List.range' (k+1+a) b))
    (hC : List.Perm C (List.range' (k+1+a+b) c))
    (hD : List.Perm D (List.range' (k+1+a+b+c) d)) :
    List.Perm (A ++ B ++ C ++ D) (List.range' (k+1) (a+b+c+d)) := by
  have h1 := perm_chunks1 hA hB
  have hC2 : List.Perm C (List.range' (k+1+(a+b)) c) := by
    rw [show k+1+(a+b) = k+1+a+b by omega]
    exact hC
  have h2 := perm_chunks1 h1 hC2
  have hD2 : List.Perm D (List.range' (k+1+(a+b+c)) d) := by
    rw [show k+1+(a+b+c) = k+1+a+b+c by omega]
    exact hD
  have h3 := perm_chunks1 h2 hD2
  rwa [show a+b+c+d = a+(b+c)+d by omega, show a+(b+c) = a+b+c by omega]

theorem sqlAssemble {vals d1 dw dl dO : List PyVal}
    {selC fromC whereC groupC orderC limitC offC : String}
    (hsel : noDollar selC)
    (hFh : headCleanS fromC)
    (hF : List.Perm (toksS fromC) (List.range' (vals.length + 1) d1.length))
    (hWh : whereC = "" ∨ headCleanS whereC)
    (hW : List.Perm (toksS whereC) (List.range' (vals.length + 1 + d1.length) dw.length))
    (hGnd : noDollar groupC) (hGh : groupC = "" ∨ headCleanS groupC)
    (hOnd : noDollar orderC) (hOh : orderC = "" ∨ headCleanS orderC)
    (hLh : limitC = "" ∨ headCleanS limitC)
    (hL : List.Perm (toksS limitC)
      (List.range' (vals.length + 1 + d1.length + dw.length) dl.length))
    (hOOh : offC = "" ∨ headCleanS offC)
    (hOO : List.Perm (toksS offC)
      (List.range' (vals.length + 1 + d1.length + dw.length + dl.length) dO.length)) :
    RenderOk vals (selC ++ fromC ++ whereC ++ groupC ++ orderC ++ limitC ++ offC)
      (vals ++ d1 ++ dw ++ dl ++ dO) := by
  refine ⟨d1 ++ dw ++ dl ++ dO, by simp, ?_⟩
  rw [toksS_clauses _ _ _ _ _ _ _ hFh hWh hGh hOh hLh hOOh]
  rw [toksS_noDollar _ hsel, toksS_noDollar _ hGnd, toksS_noDollar _ hOnd]
  simp only [List.nil_append, List.append_nil]
  have hperm := perm_seq4 hF hW hL hOO
  rw [show (d1 ++ dw ++ dl ++ dO).length = d1.length + dw.length + dl.length + dO.length by
    simp only [List.length_append]]
  exact hperm

theorem sqlStep (f : Nat) (hSrc : SourcesSpec f) (hConds : CondsSpec f) : SqlSpec (f+1) := by
  intro q vals t vals2 h hdf
  cases q with
  | mk srcs sels conds gbs obs lim off dist =>
    cases hdf with
    | mk srcs sels conds gbs obs lim off dist hs1 hs2 hsel hc hg ho hd =>
      simp only [sqlF] at h
      split at h
      · exact absurd h (by simp)
      · rename_i tabs subs joins v1 heqS
        split at h
        · exact absurd h (by simp)
        · rename_i whereClause v2 heqW
          simp only [Except.ok.injEq, Prod.mk.injEq] at h
          obtain ⟨h1, h2⟩ := h
          subst h1
          subst h2
          obtain ⟨d1, rfl, htabs, hsubsH, hjoinsH, hF⟩ :=
            hSrc srcs vals tabs subs joins v1 heqS (fun p hp => ⟨hs1 p hp, hs2 p hp⟩)
          have hWfact : ∃ dw, v2 = vals ++ d1 ++ dw ∧
              List.Perm (toksS whereClause)
                (List.range' (vals.length + 1 + d1.length) dw.length) ∧
              (whereClause = "" ∨ headCleanS whereClause) := by
            cases conds with
            | nil =>
              injection heqW with hw
              injection hw with hw1 hw2
              subst hw1
              subst hw2
              refine ⟨[], by simp, ?_, Or.inl rfl⟩
              rw [show toksS "" = [] from rfl]
              simp
            | cons c0 crest =>
              split at heqW
              · rename_i hbad
                exact absurd hbad (by simp)
              · split at heqW
                · exact absurd heqW (by simp)
                · rename_i wcls v2a heqC
                  simp only [Except.ok.injEq, Prod.mk.injEq] at heqW
                  obtain ⟨hw1, hw2⟩ := heqW
                  subst hw1
                  subst hw2
                  obtain ⟨dw, hveq, hcontig⟩ := hConds (c0 :: crest) _ wcls _ heqC hc
                  refine ⟨dw, hveq, ?_, Or.inr (headCleanS_append_left "\nWHERE " _ (by decide))⟩
                  rw [toksS_append_nd "\nWHERE " _ (by decide)]
                  rw [joinSep_toks " AND " (by decide) (by decide)]
                  have hfp := hcontig.flatten_perm
                  rw [hveq] at hfp
                  rw [show (vals ++ d1 ++ dw).length - (vals ++ d1).length = dw.length by
                    simp only [List.length_append]; omega] at hfp
                  rw [show (vals ++ d1).length + 1 = vals.length + 1 + d1.length by
                    simp [List.length_append]; omega] at hfp
                  exact hfp
          obtain ⟨dw, rfl, hW, hWh⟩ := hWfact
          have hselNd : noDollar (selectPrefix dist ++
              joinSep ", " ((if sels.isEmpty then [Sum.inl "*"] else sels).map selRender)) := by
            refine noDollar_append _ _ ?_ (joinSep_noDollar ", " (by decide) _ ?_)
            · unfold selectPrefix
              split
              · decide
              · decide
              · rename_i c hne
                exact noDollar_append _ _ (noDollar_append _ _ (by decide) (hd c (by simp)))
                  (by decide)
            · intro x hx
              simp only [List.mem_map] at hx
              obtain ⟨s0, hs0, rfl⟩ := hx
              split at hs0
              · simp only [List.mem_singleton] at hs0
                subst hs0
                decide
              · exact selRender_noDollar s0 (hsel s0 hs0)
          have hGnd : noDollar (if gbs.isEmpty then "" else "\nGROUP BY " ++ joinSep ", " gbs) := by
            split
            · decide
            · exact noDollar_append _ _ (by decide) (joinSep_noDollar ", " (by decide) gbs hg)
          have hGh : (if gbs.isEmpty then "" else "\nGROUP BY " ++ joinSep ", " gbs) = "" ∨
              headCleanS (if gbs.isEmpty then "" else "\nGROUP BY " ++ joinSep ", " gbs) := by
            split
            · exact Or.inl rfl
            · exact Or.inr (headCleanS_append_left _ _ (by decide))
          have hOnd : noDollar
              (if obs.isEmpty then "" else "\nORDER BY " ++ joinSep ", " (obs.map orderItem)) := by
            split
            · decide
            · refine noDollar_append _ _ (by decide) (joinSep_noDollar ", " (by decide) _ ?_)
              intro x hx
              simp only [List.mem_map] at hx
              obtain ⟨s0, hs0, rfl⟩ := hx
              exact orderItem_noDollar s0 (ho s0 hs0)
          have hOh : (if obs.isEmpty then "" else "\nORDER BY " ++ joinSep ", " (obs.map orderItem)) = "" ∨
              headCleanS (if obs.isEmpty then "" else "\nORDER BY " ++ joinSep ", " (obs.map orderItem)) := by
            split
            · exact Or.inl rfl
            · exact Or.inr (headCleanS_append_left _ _ (by decide))
          have hFh : headCleanS ("\nFROM " ++ joinSep ", " tabs ++ joinSep "\n" (subs ++ joins)) :=
            headCleanS_append_left _ _ (headCleanS_append_left "\nFROM " _ (by decide))
          have hFt : List.Perm
              (toksS ("\nFROM " ++ joinSep ", " tabs ++ joinSep "\n" (subs ++ joins)))
              (List.range' (vals.length + 1) d1.length) := by
            rw [toksS_fromClause tabs subs joins htabs]
            exact hF
          cases lim with
          | none =>
            cases off with
            | none =>
              have hLt : List.Perm (toksS "")
                  (List.range' (vals.length + 1 + d1.length + dw.length)
                    ([] : List PyVal).length) := by
                rw [show toksS "" = [] from rfl]; simp
              have hOOt : List.Perm (toksS "")
                  (List.range' (vals.length + 1 + d1.length + dw.length + ([] : List PyVal).length)
                    ([] : List PyVal).length) := by
                rw [show toksS "" = [] from rfl]; simp
              have hres := sqlAssemble hselNd hFh hFt hWh hW hGnd hGh hOnd hOh
                (Or.inl rfl) hLt (Or.inl rfl) hOOt
              simpa using hres
            | some m =>
              have hLt : List.Perm (toksS "")
                  (List.range' (vals.length + 1 + d1.length + dw.length)
                    ([] : List PyVal).length) := by
                rw [show toksS "" = [] from rfl]; simp
              have hOOt : List.Perm
                  (toksS ("\nOFFSET $" ++ natRepr ((vals ++ d1 ++ dw).length + 1)))
                  (List.range' (vals.length + 1 + d1.length + dw.length + ([] : List PyVal).length)
                    [PyVal.vInt m].length) := by
                rw [toksS_dollarTail "\nOFFSET $" _ (by decide)]
                rw [show (vals ++ d1 ++ dw).length + 1 =
                  vals.length + 1 + d1.length + dw.length + ([] : List PyVal).length by
                  simp only [List.length_append, List.length_nil]; omega]
                simp
              have hres := sqlAssemble hselNd hFh hFt hWh hW hGnd hGh hOnd hOh
                (Or.inl rfl) hLt
                (Or.inr (headCleanS_append_left "\nOFFSET $" _ (by decide))) hOOt
              simpa using hres
          | some n =>
            cases off with
            | none =>
              have hLt : List.Perm
                  (toksS ("\nLIMIT $" ++ natRepr ((vals ++ d1 ++ dw).length + 1)))
                  (List.range' (vals.length + 1 + d1.length + dw.length)
                    [PyVal.vInt n].length) := by
                rw [toksS_dollarTail "\nLIMIT $" _ (by decide)]
                rw [show (vals ++ d1 ++ dw).length + 1 =
                  vals.length + 1 + d1.length + dw.length by
                  simp only [List.length_append]; omega]
                simp
              have hOOt : List.Perm (toksS "")
                  (List.range' (vals.length + 1 + d1.length + dw.length +
                    [PyVal.vInt n].length) ([] : List PyVal).length) := by
                rw [show toksS "" = [] from rfl]; simp
              have hres := sqlAssemble hselNd hFh hFt hWh hW hGnd hGh hOnd hOh
                (Or.inr (headCleanS_append_left "\nLIMIT $" _ (by decide))) hLt
                (Or.inl rfl) hOOt
              simpa using hres
            | some m =>
              have hLt : List.Perm
                  (toksS ("\nLIMIT $" ++ natRepr ((vals ++ d1 ++ dw).length + 1)))
                  (List.range' (vals.length + 1 + d1.length + dw.length)
                    [PyVal.vInt n].length) := by
                rw [toksS_dollarTail "\nLIMIT $" _ (by decide)]
                rw [show (vals ++ d1 ++ dw).length + 1 =
                  vals.length + 1 + d1.length + dw.length by
                  simp only [List.length_append]; omega]
                simp
              have hOOt : List.Perm
                  (toksS ("\nOFFSET $" ++ natRepr ((vals ++ d1 ++ dw ++ [PyVal.vInt n]).length + 1)))
                  (List.range' (vals.length + 1 + d1.length + dw.length + [PyVal.vInt n].length)
                    [PyVal.vInt m].length) := by
                rw [toksS_dollarTail "\nOFFSET $" _ (by decide)]
                rw [show (vals ++ d1 ++ dw ++ [PyVal.vInt n]).length + 1 =
                  vals.length + 1 + d1.length + dw.length + [PyVal.vInt n].length by
                  simp only [List.length_append, List.length_cons, List.length_nil]; omega]
                simp
              have hres := sqlAssemble hselNd hFh hFt hWh hW hGnd hGh hOnd hOh
                (Or.inr (headCleanS_append_left "\nLIMIT $" _ (by decide))) hLt
                (Or.inr (headCleanS_append_left "\nOFFSET $" _ (by decide))) hOOt
              simpa using hres

theorem renderSpecs (fuel : Nat) :
    PlSpec fuel ∧ KwEntrySpec fuel ∧ KwsSpec fuel ∧ ArgsSpec fuel ∧ QSpec fuel ∧
    JoinSpec fuel ∧ SourcesSpec fuel ∧ CondsSpec fuel ∧ SqlSpec fuel := by
  induction fuel with
  | zero =>
    refine ⟨?_, ?_, ?_, ?_, ?_, ?_, ?_, ?_, ?_⟩
    · intro v vals t vals2 h _
      simp [placeholderF] at h
    · intro key v vals t vals2 h _ _
      simp [kwEntryF] at h
    · intro kws vals ps vals2 h _
      simp [kwsF] at h
    · intro args vals ps vals2 h _
      simp [argsF] at h
    · intro q vals t vals2 h _
      simp [qRenderF] at h
    · intro j a vals t vals2 h _ _
      simp [joinRenderF] at h
    · intro srcs vals tabs subs joins vals2 h _
      simp [sourcesF] at h
    · intro conds vals ps vals2 h _
      simp [condsF] at h
    · intro q vals t vals2 h _
      simp [sqlF] at h
  | succ f ih =>
    obtain ⟨hPl, hKe, hKws, hArgs, hQ, hJoin, hSrc, hConds, hSql⟩ := ih
    exact ⟨plStep f hSql, kwEntryStep f hPl, kwsStep f hKe hKws, argsStep f hQ hArgs,
      qStep f hArgs hKws, joinStep f hSql hQ, sourcesStep f hJoin hSql hSrc,
      condsStep f hQ hConds, sqlStep f hSrc hConds⟩

theorem qSpec_all (fuel : Nat) : QSpec fuel :=
  (renderSpecs fuel).2.2.2.2.1

theorem sqlSpec_all (fuel : Nat) : SqlSpec fuel :=
  (renderSpecs fuel).2.2.2.2.2.2.2.2

theorem condsSpec_all (fuel : Nat) : CondsSpec fuel :=
  (renderSpecs fuel).2.2.2.2.2.2.2.1

theorem sourcesSpec_all (fuel : Nat) : SourcesSpec fuel :=
  (renderSpecs fuel).2.2.2.2.2.2.1

theorem toksS_ctePiece (a qt : String) (ha : noDollar a) :
    toksS ("\"" ++ a ++ "\" AS (\n" ++ indent2 qt ++ "\n)") = toksS qt := by
  rw [toksS_tail _ "\n)" (by decide) (by decide)]
  rw [toksS_append_nd _ (indent2 qt)
    (noDollar_append _ _ (noDollar_append _ _ (by decide) ha) (by decide))]
  exact toksS_indent2 qt

theorem ctesOk : ∀ f ctes vals pieces vals2, ctesF f ctes vals = .ok (pieces, vals2) →
    (∀ p ∈ ctes, noDollar (Prod.fst p) ∧ DFQuery (Prod.snd p)) →
    PiecesOk vals pieces vals2 := by
  intro f
  induction f with
  | zero =>
    intro ctes vals pieces vals2 h _
    simp [ctesF] at h
  | succ f ih =>
    intro ctes vals pieces vals2 h hdf
    cases ctes with
    | nil =>
      simp only [ctesF, Except.ok.injEq, Prod.mk.injEq] at h
      obtain ⟨h1, h2⟩ := h
      subst h1
      subst h2
      exact ⟨[], by simp, Contig.nil _⟩
    | cons p rest =>
      obtain ⟨a, q⟩ := p
      simp only [ctesF] at h
      split at h
      · exact absurd h (by simp)
      · rename_i qt v1 heq1
        split at h
        · exact absurd h (by simp)
        · rename_i pieces2 v2 heq2
          simp only [Except.ok.injEq, Prod.mk.injEq] at h
          obtain ⟨h1, h2⟩ := h
          subst h1
          subst h2
          have hq := sqlSpec_all f q vals qt v1 heq1 (hdf (a, q) (by simp)).2
          have hro : RenderOk vals ("\"" ++ a ++ "\" AS (\n" ++ indent2 qt ++ "\n)") v1 :=
            hq.congr (toksS_ctePiece a qt (hdf (a, q) (by simp)).1)
          exact PiecesOk.build hro (ih rest v1 pieces2 v2 heq2 (fun p hp => hdf p (by simp [hp])))

theorem unionPiecesOk : ∀ f qs vals pieces vals2,
    unionPiecesF f qs vals = .ok (pieces, vals2) →
    (∀ q ∈ qs, DFQuery q) → PiecesOk vals pieces vals2 := by
  intro f
  induction f with
  | zero =>
    intro qs vals pieces vals2 h _
    simp [unionPiecesF] at h
  | succ f ih =>
    intro qs vals pieces vals2 h hdf
    cases qs with
    | nil =>
      simp only [unionPiecesF, Except.ok.injEq, Prod.mk.injEq] at h
      obtain ⟨h1, h2⟩ := h
      subst h1
      subst h2
      exact ⟨[], by simp, Contig.nil _⟩
    | cons q rest =>
      simp only [unionPiecesF] at h
      split at h
      · exact absurd h (by simp)
      · rename_i qt v1 heq1
        split at h
        · exact absurd h (by simp)
        · rename_i pieces2 v2 heq2
          simp only [Except.ok.injEq, Prod.mk.injEq] at h
          obtain ⟨h1, h2⟩ := h
          subst h1
          subst h2
          have hq := sqlSpec_all f q vals qt v1 heq1 (hdf q (by simp))
          have hro : RenderOk vals (indent2 qt) v1 := hq.congr (toksS_indent2 qt)
          exact PiecesOk.build hro (ih rest v1 pieces2 v2 heq2 (fun p hp => hdf p (by simp [hp])))

theorem toksS_withText (pieces : List String) (mt : String) :
    toksS ("WITH " ++ joinSep ",\n" pieces ++ "\n" ++ mt) =
      (pieces.map toksS).flatten ++ toksS mt := by
  rw [toksS_append_left _ mt (stateNone_append _ "\n" (by decide) (by decide))]
  rw [toksS_tail _ "\n" (by decide) (by decide)]
  rw [toksS_append_nd "WITH " _ (by decide)]
  rw [joinSep_toks ",\n" (by decide) (by decide)]

theorem withRegions (f : Nat) (main : Query) (ctes : List (String × Query))
    (vals : List PyVal) (t : String) (vals2 : List PyVal)
    (h : withSqlF (f+1) (.mk main ctes) vals = .ok (t, vals2))
    (hdf : DFWith (.mk main ctes)) :
    ∃ pieces mt v1 d,
      ctesF f ctes vals = .ok (pieces, v1) ∧
      sqlF f main v1 = .ok (mt, vals2) ∧
      t = "WITH " ++ joinSep ",\n" pieces ++ "\n" ++ mt ∧
      vals2 = vals ++ d ∧
      Contig vals.length (pieces ++ [mt]) vals2.length := by
  obtain ⟨hmain, hctes⟩ := hdf
  simp only [withSqlF] at h
  split at h
  · exact absurd h (by simp)
  · rename_i pieces v1 heq1
    split at h
    · exact absurd h (by simp)
    · rename_i mt v2 heq2
      simp only [Except.ok.injEq, Prod.mk.injEq] at h
      obtain ⟨h1, h2⟩ := h
      subst h1
      subst h2
      obtain ⟨d1, rfl, hc1⟩ := ctesOk f ctes vals pieces v1 heq1 hctes
      obtain ⟨d2, rfl, hp2⟩ := sqlSpec_all f main _ mt _ heq2 hmain
      refine ⟨pieces, mt, _, d1 ++ d2, heq1, heq2, rfl, by simp, ?_⟩
      refine Contig.append hc1 (Contig.cons _ _ d2.length _ _ hp2 ?_)
      have he : (vals ++ d1 ++ d2).length = (vals ++ d1).length + d2.length := by
        simp only [List.length_append]
      exact he ▸ Contig.nil _

theorem unionRegions (f : Nat) (qs : List Query) (allF : Bool)
    (vals : List PyVal) (t : String) (vals2 : List PyVal)
    (h : unionSqlF (f+1) (.mk qs allF) vals = .ok (t, vals2))
    (hdf : DFUnion (.mk qs allF)) :
    ∃ pieces d,
      unionPiecesF f qs vals = .ok (pieces, vals2) ∧
      t = joinSep (if allF then "\nUNION ALL\n" else "\nUNION\n") pieces ∧
      vals2 = vals ++ d ∧
      Contig vals.length pieces vals2.length := by
  simp only [unionSqlF] at h
  split at h
  · exact absurd h (by simp)
  · rename_i pieces v1 heq1
    simp only [Except.ok.injEq, Prod.mk.injEq] at h
    obtain ⟨h1, h2⟩ := h
    subst h1
    subst h2
    obtain ⟨d, rfl, hc⟩ := unionPiecesOk f qs vals pieces v1 heq1 hdf
    exact ⟨pieces, d, heq1, rfl, rfl, hc⟩

theorem toksS_recText (a bt mt : String) (ha : noDollar a) :
    toksS ("WITH RECURSIVE \"" ++ a ++ "\" AS (\n" ++ indent2 bt ++ "\n)\n" ++ mt) =
      toksS bt ++ toksS mt := by
  rw [toksS_append_left _ mt (stateNone_append _ "\n)\n" (by decide) (by decide))]
  rw [toksS_tail _ "\n)\n" (by decide) (by decide)]
  rw [toksS_append_nd _ (indent2 bt)
    (noDollar_append _ _ (noDollar_append _ _ (by decide) ha) (by decide))]
  rw [toksS_indent2]

theorem unionRenderOk : ∀ f u vals t vals2, unionSqlF f u vals = .ok (t, vals2) →
    DFUnion u → RenderOk vals t vals2 := by
  intro f u vals t vals2 h hdf
  cases f with
  | zero => simp [unionSqlF] at h
  | succ f =>
    cases u with
    | mk qs allF =>
      obtain ⟨pieces, d, heqP, rfl, hveq, hcontig⟩ :=
        unionRegions f qs allF vals t vals2 h hdf
      refine ⟨d, hveq, ?_⟩
      have hperm := hcontig.flatten_perm
      rw [hveq] at hperm
      rw [show (vals ++ d).length - vals.length = d.length by simp] at hperm
      cases allF with
      | false =>
        rw [show (if (false : Bool) then "\nUNION ALL\n" else "\nUNION\n") = "\nUNION\n"
          from rfl]
        rw [joinSep_toks "\nUNION\n" (by decide) (by decide)]
        exact hperm
      | true =>
        rw [show (if (true : Bool) then "\nUNION ALL\n" else "\nUNION\n") = "\nUNION ALL\n"
          from rfl]
        rw [joinSep_toks "\nUNION ALL\n" (by decide) (by decide)]
        exact hperm

theorem recRegions (f : Nat) (main : Query) (base : QueryUnion) (a : String)
    (vals : List PyVal) (t : String) (vals2 : List PyVal)
    (h : recSqlF (f+1) (.mk main base a) vals = .ok (t, vals2))
    (hdf : DFRec (.mk main base a)) :
    ∃ bt mt v1 d,
      unionSqlF f base vals = .ok (bt, v1) ∧
      sqlF f main v1 = .ok (mt, vals2) ∧
      t = "WITH RECURSIVE \"" ++ a ++ "\" AS (\n" ++ indent2 bt ++ "\n)\n" ++ mt ∧
      vals2 = vals ++ d ∧
      Contig vals.length [bt, mt] vals2.length := by
  obtain ⟨hmain, hbase, ha⟩ := hdf
  simp only [recSqlF] at h
  split at h
  · exact absurd h (by simp)
  · rename_i bt v1 heq1
    split at h
    · exact absurd h (by simp)
    · rename_i mt v2 heq2
      simp only [Except.ok.injEq, Prod.mk.injEq] at h
      obtain ⟨h1, h2⟩ := h
      subst h1
      subst h2
      obtain ⟨d1, rfl, hp1⟩ := unionRenderOk f base vals bt v1 heq1 hbase
      obtain ⟨d2, rfl, hp2⟩ := sqlSpec_all f main _ mt _ heq2 hmain
      refine ⟨bt, mt, _, d1 ++ d2, heq1, heq2, rfl, by simp, ?_⟩
      refine Contig.cons _ _ d1.length _ _ hp1 (Contig.cons _ _ d2.length _ _ ?_ ?_)
      · have he : (vals ++ d1).length = vals.length + d1.length := by simp
        exact he ▸ hp2
      · have he : (vals ++ d1 ++ d2).length = vals.length + d1.length + d2.length := by
          simp only [List.length_append]
        rw [← he]
        exact Contig.nil _

theorem withRenderOk : ∀ f w vals t vals2, withSqlF f w vals = .ok (t, vals2) →
    DFWith w → RenderOk vals t vals2 := by
  intro f w vals t vals2 h hdf
  cases f with
  | zero => simp [withSqlF] at h
  | succ f =>
    cases w with
    | mk main ctes =>
      obtain ⟨pieces, mt, v1, d, heq1, heq2, rfl, hveq, hcontig⟩ :=
        withRegions f main ctes vals _ vals2 h hdf
      refine ⟨d, hveq, ?_⟩
      rw [toksS_withText]
      have hperm := hcontig.flatten_perm
      rw [hveq] at hperm
      rw [show (vals ++ d).length - vals.length = d.length by simp] at hperm
      simpa using hperm

theorem recRenderOk : ∀ f r vals t vals2, recSqlF f r vals = .ok (t, vals2) →
    DFRec r → RenderOk vals t vals2 := by
  intro f r vals t vals2 h hdf
  cases f with
  | zero => simp [recSqlF] at h
  | succ f =>
    cases r with
    | mk main base a =>
      obtain ⟨bt, mt, v1, d, heq1, heq2, rfl, hveq, hcontig⟩ :=
        recRegions f main base a vals _ vals2 h hdf
      refine ⟨d, hveq, ?_⟩
      rw [toksS_recText _ _ _ hdf.2.2]
      have hperm := hcontig.flatten_perm
      rw [hveq] at hperm
      rw [show (vals ++ d).length - vals.length = d.length by simp] at hperm
      simpa using hperm

/- Claim theorems. -/

theorem dfQ_single (k : String) (v : PyVal) (hk : noDollar k) (hv : DFVal v) :
    DFQ (.mk [] [(k, v)]) :=
  DFQ.mk _ _ (by simp)
    (by
      intro p hp
      simp only [List.mem_singleton] at hp
      subst hp
      exact hk)
    (by
      intro p hp
      simp only [List.mem_singleton] at hp
      subst hp
      exact hv)

theorem dfQuery_oneTable (a t : String) (conds : List Q) (lim off : Option Int)
    (ha : noDollar a) (ht : noDollar t) (hc : ∀ c ∈ conds, DFQ c) :
    DFQuery (.mk [(a, .table t)] [] conds [] [] lim off none) :=
  DFQuery.mk _ _ _ _ _ _ _ _
    (by
      intro p hp
      simp only [List.mem_singleton] at hp
      subst hp
      exact ha)
    (by
      intro p hp
      simp only [List.mem_singleton] at hp
      subst hp
      exact DFSource.table t ht)
    (by simp) hc (by simp) (by simp) (by simp)

/-- C1, counterexample: rendering `Q(name=Exp("$0"))` succeeds with an empty
bound-values list although the text contains the placeholder token `$0`, so
the placeholder numbers are not `1..len(values)` and the count of distinct
placeholders differs from `len(values)`. -/
theorem C1_counterexample :
    qRenderF 10 (Q.mk [] [("name", PyVal.vExp "$0")]) [] = .ok ("\"name\" = $0", []) ∧
    toksS "\"name\" = $0" = [0] ∧
    ¬ (toksS "\"name\" = $0").length = ([] : List PyVal).length ∧
    ¬ List.Perm (toksS "\"name\" = $0") (List.range' 1 ([] : List PyVal).length) :=
  ⟨rfl, rfl, by decide, by decide⟩

/-- C1 (amended): for every successful render from a fresh empty accumulator
of a dollar-free builder value (no raw `$` in `Exp` strings, aliases, table
names, selections, group/order columns or the distinct column), the
placeholder tokens of the returned text are exactly `1..len(values)` (as a
multiset), for all five renderers; and the limit/offset example renders with
the LIMIT placeholder `$1` numbered before the OFFSET placeholder `$2` and
values `[10, 5]`. -/
theorem C1_placeholder_numbering :
    (∀ fuel q t vals2, qRenderF fuel q [] = .ok (t, vals2) → DFQ q →
      List.Perm (toksS t) (List.range' 1 vals2.length)) ∧
    (∀ fuel q t vals2, sqlF fuel q [] = .ok (t, vals2) → DFQuery q →
      List.Perm (toksS t) (List.range' 1 vals2.length)) ∧
    (∀ fuel w t vals2, withSqlF fuel w [] = .ok (t, vals2) → DFWith w →
      List.Perm (toksS t) (List.range' 1 vals2.length)) ∧
    (∀ fuel u t vals2, unionSqlF fuel u [] = .ok (t, vals2) → DFUnion u →
      List.Perm (toksS t) (List.range' 1 vals2.length)) ∧
    (∀ fuel r t vals2, recSqlF fuel r [] = .ok (t, vals2) → DFRec r →
      List.Perm (toksS t) (List.range' 1 vals2.length)) ∧
    sqlF 50 (Query.mk [("u", DataSource.table "user")] [] [] [] [] (some 10) (some 5) none) []
      = .ok ("SELECT *\nFROM user AS \"u\"\nLIMIT $1\nOFFSET $2",
             [PyVal.vInt 10, PyVal.vInt 5]) := by
  refine ⟨?_, ?_, ?_, ?_, ?_, rfl⟩
  · intro fuel q t vals2 h hdf
    obtain ⟨d, hv, hp⟩ := qSpec_all fuel q [] t vals2 h hdf
    subst hv
    simpa using hp
  · intro fuel q t vals2 h hdf
    obtain ⟨d, hv, hp⟩ := sqlSpec_all fuel q [] t vals2 h hdf
    subst hv
    simpa using hp
  · intro fuel w t vals2 h hdf
    obtain ⟨d, hv, hp⟩ := withRenderOk fuel w [] t vals2 h hdf
    subst hv
    simpa using hp
  · intro fuel u t vals2 h hdf
    obtain ⟨d, hv, hp⟩ := unionRenderOk fuel u [] t vals2 h hdf
    subst hv
    simpa using hp
  · intro fuel r t vals2 h hdf
    obtain ⟨d, hv, hp⟩ := recRenderOk fuel r [] t vals2 h hdf
    subst hv
    simpa using hp

/-- Witness for C1: the amended theorem applied to the rendered limit/offset
example query. -/
theorem C1_placeholder_numbering_witness :
    List.Perm (toksS "SELECT *\nFROM user AS \"u\"\nLIMIT $1\nOFFSET $2")
      (List.range' 1 2) :=
  C1_placeholder_numbering.2.1 50
    (Query.mk [("u", DataSource.table "user")] [] [] [] [] (some 10) (some 5) none)
    "SELECT *\nFROM user AS \"u\"\nLIMIT $1\nOFFSET $2" [PyVal.vInt 10, PyVal.vInt 5]
    rfl (dfQuery_oneTable "u" "user" [] (some 10) (some 5) (by decide) (by decide) (by simp))

/-- C2: each composite statement threads one shared bound-values accumulator
through its member queries, and the members' placeholder tokens number
contiguously (continuing from the accumulator's length, hence starting at 1
for an empty accumulator) in the structure's traversal order: declared CTEs
before the main query for `With`, union members in member order for
`QueryUnion`, and the base union before the main query for
`RecursiveWith`. -/
theorem C2_shared_accumulator :
    (∀ f main ctes vals t vals2,
      withSqlF (f+1) (With.mk main ctes) vals = .ok (t, vals2) →
      DFWith (With.mk main ctes) →
      ∃ pieces mt v1 d, ctesF f ctes vals = .ok (pieces, v1) ∧
        sqlF f main v1 = .ok (mt, vals2) ∧
        t = "WITH " ++ joinSep ",\n" pieces ++ "\n" ++ mt ∧
        vals2 = vals ++ d ∧
        Contig vals.length (pieces ++ [mt]) vals2.length) ∧
    (∀ f qs allF vals t vals2,
      unionSqlF (f+1) (QueryUnion.mk qs allF) vals = .ok (t, vals2) →
      DFUnion (QueryUnion.mk qs allF) →
      ∃ pieces d, unionPiecesF f qs vals = .ok (pieces, vals2) ∧
        t = joinSep (if allF then "\nUNION ALL\n" else "\nUNION\n") pieces ∧
        vals2 = vals ++ d ∧
        Contig vals.length pieces vals2.length) ∧
    (∀ f main base a vals t vals2,
      recSqlF (f+1) (RecursiveWith.mk main base a) vals = .ok (t, vals2) →
      DFRec (RecursiveWith.mk main base a) →
      ∃ bt mt v1 d, unionSqlF f base vals = .ok (bt, v1) ∧
        sqlF f main v1 = .ok (mt, vals2) ∧
        t = "WITH RECURSIVE \"" ++ a ++ "\" AS (\n" ++ indent2 bt ++ "\n)\n" ++ mt ∧
        vals2 = vals ++ d ∧
        Contig vals.length [bt, mt] vals2.length) :=
  ⟨withRegions, unionRegions, recRegions⟩

/-- Witness for C2: the `With` part applied to a one-CTE statement rendered
from an empty accumulator. -/
theorem C2_shared_accumulator_witness :
    ∃ pieces mt v1 d,
      ctesF 59 [("dr", Query.mk [("p", DataSource.table "profile")] []
          [Q.mk [] [("id", PyVal.vInt 5)]] [] [] none none none)] [] = .ok (pieces, v1) ∧
      sqlF 59 (Query.mk [("d", DataSource.table "dr")] []
          [Q.mk [] [("x", PyVal.vInt 7)]] [] [] none none none) v1 = .ok (mt, [PyVal.vInt 5, PyVal.vInt 7]) ∧
      ("WITH \"dr\" AS (\n  SELECT *\n  FROM profile AS \"p\"\n  WHERE \"id\" = $1\n)\nSELECT *\nFROM dr AS \"d\"\nWHERE \"x\" = $2"
        = "WITH " ++ joinSep ",\n" pieces ++ "\n" ++ mt) ∧
      ([PyVal.vInt 5, PyVal.vInt 7] = [] ++ d) ∧
      Contig ([] : List PyVal).length (pieces ++ [mt]) [PyVal.vInt 5, PyVal.vInt 7].length :=
  C2_shared_accumulator.1 59
    (Query.mk [("d", DataSource.table "dr")] [] [Q.mk [] [("x", PyVal.vInt 7)]] [] [] none none none)
    [("dr", Query.mk [("p", DataSource.table "profile")] []
        [Q.mk [] [("id", PyVal.vInt 5)]] [] [] none none none)]
    [] _ [PyVal.vInt 5, PyVal.vInt 7] rfl
    ⟨dfQuery_oneTable "d" "dr" [Q.mk [] [("x", PyVal.vInt 7)]] none none (by decide) (by decide)
        (by
          intro c hc
          simp only [List.mem_singleton] at hc
          subst hc
          exact dfQ_single "x" (PyVal.vInt 7) (by decide) (DFVal.vInt 7)),
      by
        intro p hp
        simp only [List.mem_singleton] at hp
        subst hp
        refine ⟨by decide, ?_⟩
        exact dfQuery_oneTable "p" "profile" [Q.mk [] [("id", PyVal.vInt 5)]] none none
          (by decide) (by decide)
          (by
            intro c hc
            simp only [List.mem_singleton] at hc
            subst hc
            exact dfQ_single "id" (PyVal.vInt 5) (by decide) (DFVal.vInt 5))⟩

/-- C3: dispatch of the `in` lookup.  A nested `Query` value renders as
`C IN (subquery)` with the subquery's placeholders merged into the shared
accumulator; a non-empty list/tuple/set whose first element is a bool/int,
string, float, datetime or date renders `C = any($N::TYPE[])` with the cast
type inferred from the first element, appending the whole collection as
exactly one bound value; a dict, a collection whose first element is of any
other kind, and an empty collection fail with an immediately raised error. -/
theorem C3_in_lookup :
    (∀ f key tab cn q sub vals vs,
      splitLookup key = .ok (tab, cn, "in") →
      sqlF f q vals = .ok (sub, vs) →
      kwEntryF (f+2) key (.vQuery q) vals =
        .ok (colRender tab cn ++ " IN " ++ ("(\n" ++ indent2 sub ++ "\n)"), vs)) ∧
    (∀ f key tab cn x rest vals typ,
      splitLookup key = .ok (tab, cn, "in") →
      (match x with
       | PyVal.vBool _ => some "int"
       | PyVal.vInt _ => some "int"
       | PyVal.vStr _ => some "text"
       | PyVal.vFloat _ => some "float"
       | PyVal.vDatetime _ => some "timestamptz"
       | PyVal.vDate _ => some "date"
       | _ => none) = some typ →
      kwEntryF (f+2) key (.vList (x :: rest)) vals =
        .ok (colRender tab cn ++ " = any(" ++ ("$" ++ natRepr (vals.length + 1)) ++ "::" ++
          typ ++ "[])", vals ++ [.vList (x :: rest)]) ∧
      kwEntryF (f+2) key (.vTuple (x :: rest)) vals =
        .ok (colRender tab cn ++ " = any(" ++ ("$" ++ natRepr (vals.length + 1)) ++ "::" ++
          typ ++ "[])", vals ++ [.vTuple (x :: rest)]) ∧
      kwEntryF (f+2) key (.vSet (x :: rest)) vals =
        .ok (colRender tab cn ++ " = any(" ++ ("$" ++ natRepr (vals.length + 1)) ++ "::" ++
          typ ++ "[])", vals ++ [.vSet (x :: rest)])) ∧
    (∀ f key tab cn d vals,
      splitLookup key = .ok (tab, cn, "in") →
      kwEntryF (f+1) key (.vDict d) vals = .error (.valueErr "Unsupported value for in lookup")) ∧
    (∀ f key tab cn x rest vals,
      splitLookup key = .ok (tab, cn, "in") →
      (match x with
       | PyVal.vBool _ => some "int"
       | PyVal.vInt _ => some "int"
       | PyVal.vStr _ => some "text"
       | PyVal.vFloat _ => some "float"
       | PyVal.vDatetime _ => some "timestamptz"
       | PyVal.vDate _ => some "date"
       | _ => none) = none →
      kwEntryF (f+1) key (.vList (x :: rest)) vals =
        .error (.valueErr "Unsupported value for in lookup")) ∧
    (∀ f key tab cn vals,
      splitLookup key = .ok (tab, cn, "in") →
      kwEntryF (f+1) key (.vList []) vals = .error .indexErr ∧
      kwEntryF (f+1) key (.vTuple []) vals = .error .indexErr ∧
      kwEntryF (f+1) key (.vSet []) vals = .error .indexErr) ∧
    kwEntryF 10 "u__id__in" (.vList [.vInt 1, .vInt 2, .vInt 3]) [] =
      .ok ("\"u\".\"id\" = any($1::int[])", [.vList [.vInt 1, .vInt 2, .vInt 3]]) := by
  refine ⟨?_, ?_, ?_, ?_, ?_, rfl⟩
  · intro f key tab cn q sub vals vs hsp hsql
    simp only [kwEntryF, hsp, placeholderF, hsql]
  · intro f key tab cn x rest vals typ hsp hm
    cases x
    case vBool b =>
      injection hm with htyp
      subst htyp
      exact ⟨by simp only [kwEntryF, hsp, placeholderF],
        by simp only [kwEntryF, hsp, placeholderF],
        by simp only [kwEntryF, hsp, placeholderF]⟩
    case vInt n =>
      injection hm with htyp
      subst htyp
      exact ⟨by simp only [kwEntryF, hsp, placeholderF],
        by simp only [kwEntryF, hsp, placeholderF],
        by simp only [kwEntryF, hsp, placeholderF]⟩
    case vStr s =>
      injection hm with htyp
      subst htyp
      exact ⟨by simp only [kwEntryF, hsp, placeholderF],
        by simp only [kwEntryF, hsp, placeholderF],
        by simp only [kwEntryF, hsp, placeholderF]⟩
    case vFloat c =>
      injection hm with htyp
      subst htyp
      exact ⟨by simp only [kwEntryF, hsp, placeholderF],
        by simp only [kwEntryF, hsp, placeholderF],
        by simp only [kwEntryF, hsp, placeholderF]⟩
    case vDatetime c =>
      injection hm with htyp
      subst htyp
      exact ⟨by simp only [kwEntryF, hsp, placeholderF],
        by simp only [kwEntryF, hsp, placeholderF],
        by simp only [kwEntryF, hsp, placeholderF]⟩
    case vDate c =>
      injection hm with htyp
      subst htyp
      exact ⟨by simp only [kwEntryF, hsp, placeholderF],
        by simp only [kwEntryF, hsp, placeholderF],
        by simp only [kwEntryF, hsp, placeholderF]⟩
    case vNone => exact absurd hm (by simp)
    case vList l => exact absurd hm (by simp)
    case vTuple l => exact absurd hm (by simp)
    case vSet l => exact absurd hm (by simp)
    case vDict l => exact absurd hm (by simp)
    case vQuery qq => exact absurd hm (by simp)
    case vExp e => exact absurd hm (by simp)
  · intro f key tab cn d vals hsp
    simp only [kwEntryF, hsp]
  · intro f key tab cn x rest vals hsp hm
    cases x
    case vNone => simp only [kwEntryF, hsp]
    case vList l => simp only [kwEntryF, hsp]
    case vTuple l => simp only [kwEntryF, hsp]
    case vSet l => simp only [kwEntryF, hsp]
    case vDict l => simp only [kwEntryF, hsp]
    case vQuery qq => simp only [kwEntryF, hsp]
    case vExp e => simp only [kwEntryF, hsp]
    case vBool b => exact absurd hm (by simp)
    case vInt n => exact absurd hm (by simp)
    case vStr s => exact absurd hm (by simp)
    case vFloat c => exact absurd hm (by simp)
    case vDatetime c => exact absurd hm (by simp)
    case vDate c => exact absurd hm (by simp)
  · intro f key tab cn vals hsp
    exact ⟨by simp only [kwEntryF, hsp], by simp only [kwEntryF, hsp],
      by simp only [kwEntryF, hsp]⟩

/-- Witness for C3: the subquery branch applied to a concrete nested query. -/
theorem C3_in_lookup_witness :
    kwEntryF 12 "u__id__in"
      (.vQuery (Query.mk [("u", DataSource.table "user")] [] [] [] [] none none none)) [] =
      .ok (colRender "u" "id" ++ " IN " ++
        ("(\n" ++ indent2 "SELECT *\nFROM user AS \"u\"" ++ "\n)"), []) :=
  C3_in_lookup.1 10 "u__id__in" "u" "id"
    (Query.mk [("u", DataSource.table "user")] [] [] [] [] none none none)
    "SELECT *\nFROM user AS \"u\"" [] [] rfl rfl

theorem sourcesShape : ∀ f srcs vals tabs subs joins vals2,
    sourcesF f srcs vals = .ok (tabs, subs, joins, vals2) →
    tabs = srcs.filterMap tableEntryOf ∧
    List.Forall₂ (fun (p : String × Query) s => ∃ f2 v v2 qt,
      sqlF f2 (Prod.snd p) v = .ok (qt, v2) ∧
      s = "(\n" ++ indent2 qt ++ "\n) AS \"" ++ Prod.fst p ++ "\"")
      (srcs.filterMap subSrcOf) subs ∧
    List.Forall₂ (fun (p : String × Join) s => ∃ f2 v v2 jt,
      joinRenderF f2 (Prod.snd p) (Prod.fst p) v = .ok (jt, v2) ∧
      s = indent2 ("\n" ++ jt))
      (srcs.filterMap joinSrcOf) joins := by
  intro f
  induction f with
  | zero =>
    intro srcs vals tabs subs joins vals2 h
    simp [sourcesF] at h
  | succ f ih =>
    intro srcs vals tabs subs joins vals2 h
    cases srcs with
    | nil =>
      simp only [sourcesF, Except.ok.injEq, Prod.mk.injEq] at h
      obtain ⟨h1, h2, h3, h4⟩ := h
      subst h1
      subst h2
      subst h3
      exact ⟨rfl, .nil, .nil⟩
    | cons p rest =>
      obtain ⟨a, src⟩ := p
      cases src with
      | table tn =>
        simp only [sourcesF] at h
        split at h
        · exact absurd h (by simp)
        · rename_i ts ss js v2 heq
          simp only [Except.ok.injEq, Prod.mk.injEq] at h
          obtain ⟨h1, h2, h3, h4⟩ := h
          subst h1
          subst h2
          subst h3
          obtain ⟨ht, hs, hj⟩ := ih rest vals ts ss js v2 heq
          refine ⟨?_, ?_, ?_⟩
          · simp only [List.filterMap_cons, tableEntryOf]
            rw [ht]
          · simpa only [List.filterMap_cons, subSrcOf] using hs
          · simpa only [List.filterMap_cons, joinSrcOf] using hj
      | modelRef m =>
        simp only [sourcesF] at h
        split at h
        · exact absurd h (by simp)
        · rename_i ts ss js v2 heq
          simp only [Except.ok.injEq, Prod.mk.injEq] at h
          obtain ⟨h1, h2, h3, h4⟩ := h
          subst h1
          subst h2
          subst h3
          obtain ⟨ht, hs, hj⟩ := ih rest vals ts ss js v2 heq
          refine ⟨?_, ?_, ?_⟩
          · simp only [List.filterMap_cons, tableEntryOf]
            rw [ht]
          · simpa only [List.filterMap_cons, subSrcOf] using hs
          · simpa only [List.filterMap_cons, joinSrcOf] using hj
      | sub q =>
        simp only [sourcesF] at h
        split at h
        · exact absurd h (by simp)
        · rename_i qt v1 heq1
          split at h
          · exact absurd h (by simp)
          · rename_i ts ss js v2 heq2
            simp only [Except.ok.injEq, Prod.mk.injEq] at h
            obtain ⟨h1, h2, h3, h4⟩ := h
            subst h1
            subst h2
            subst h3
            obtain ⟨ht, hs, hj⟩ := ih rest v1 ts ss js v2 heq2
            refine ⟨?_, ?_, ?_⟩
            · simp only [List.filterMap_cons, tableEntryOf]
              rw [ht]
            · simp only [List.filterMap_cons, subSrcOf]
              exact List.Forall₂.cons ⟨f, vals, v1, qt, heq1, rfl⟩ hs
            · simpa only [List.filterMap_cons, joinSrcOf] using hj
      | joinSrc j =>
        simp only [sourcesF] at h
        split at h
        · exact absurd h (by simp)
        · rename_i jt v1 heq1
          split at h
          · exact absurd h (by simp)
          · rename_i ts ss js v2 heq2
            simp only [Except.ok.injEq, Prod.mk.injEq] at h
            obtain ⟨h1, h2, h3, h4⟩ := h
            subst h1
            subst h2
            subst h3
            obtain ⟨ht, hs, hj⟩ := ih rest v1 ts ss js v2 heq2
            refine ⟨?_, ?_, ?_⟩
            · simp only [List.filterMap_cons, tableEntryOf]
              rw [ht]
            · simpa only [List.filterMap_cons, subSrcOf] using hs
            · simp only [List.filterMap_cons, joinSrcOf]
              exact List.Forall₂.cons ⟨f, vals, v1, jt, heq1, rfl⟩ hj

theorem sqlFromPlacement (f : Nat) (srcs : List (String × DataSource))
    (sels : List (String ⊕ (String × String))) (conds : List Q)
    (gbs obs : List String) (lim off : Option Int) (dist : Option String)
    (vals : List PyVal) (t : String) (vals2 : List PyVal)
    (h : sqlF (f+1) (Query.mk srcs sels conds gbs obs lim off dist) vals = .ok (t, vals2)) :
    ∃ tabs subs joins v1 whereC limC offC,
      sourcesF f srcs vals = .ok (tabs, subs, joins, v1) ∧
      t = selectPrefix dist ++
          joinSep ", " ((if sels.isEmpty then [Sum.inl "*"] else sels).map selRender) ++
          ("\nFROM " ++ joinSep ", " tabs ++ joinSep "\n" (subs ++ joins)) ++
          whereC ++
          (if gbs.isEmpty then "" else "\nGROUP BY " ++ joinSep ", " gbs) ++
          (if obs.isEmpty then "" else "\nORDER BY " ++ joinSep ", " (obs.map orderItem)) ++
          limC ++ offC := by
  simp only [sqlF] at h
  split at h
  · exact absurd h (by simp)
  · rename_i tabs subs joins v1 heqS
    split at h
    · exact absurd h (by simp)
    · rename_i whereC v2 heqW
      cases lim with
      | none =>
        cases off with
        | none =>
          simp only [Except.ok.injEq, Prod.mk.injEq] at h
          exact ⟨tabs, subs, joins, v1, whereC, "", "", heqS, h.1.symm⟩
        | some m =>
          simp only [Except.ok.injEq, Prod.mk.injEq] at h
          exact ⟨tabs, subs, joins, v1, whereC, "",
            "\nOFFSET $" ++ natRepr (v2.length + 1), heqS, h.1.symm⟩
      | some n =>
        cases off with
        | none =>
          simp only [Except.ok.injEq, Prod.mk.injEq] at h
          exact ⟨tabs, subs, joins, v1, whereC,
            "\nLIMIT $" ++ natRepr (v2.length + 1), "", heqS, h.1.symm⟩
        | some m =>
          simp only [Except.ok.injEq, Prod.mk.injEq] at h
          exact ⟨tabs, subs, joins, v1, whereC,
            "\nLIMIT $" ++ natRepr (v2.length + 1),
            "\nOFFSET $" ++ natRepr ((v2 ++ [PyVal.vInt n]).length + 1), heqS, h.1.symm⟩

/-- C4: `Query.sql` builds the FROM clause from the sources in insertion
order: each plain table-name or table-ref source contributes
`qualified AS "alias"` to the comma-separated base table list, each
nested-Query source renders as an indented parenthesized subquery aliased
with `AS "alias"` (consuming its placeholders in the shared accumulator),
and join sources are rendered separately and appended after the base table
list (newline-joined) rather than inline in the comma list. -/
theorem C4_from_clause :
    (∀ f srcs vals tabs subs joins vals2,
      sourcesF f srcs vals = .ok (tabs, subs, joins, vals2) →
      tabs = srcs.filterMap tableEntryOf ∧
      List.Forall₂ (fun (p : String × Query) s => ∃ f2 v v2 qt,
        sqlF f2 (Prod.snd p) v = .ok (qt, v2) ∧
        s = "(\n" ++ indent2 qt ++ "\n) AS \"" ++ Prod.fst p ++ "\"")
        (srcs.filterMap subSrcOf) subs ∧
      List.Forall₂ (fun (p : String × Join) s => ∃ f2 v v2 jt,
        joinRenderF f2 (Prod.snd p) (Prod.fst p) v = .ok (jt, v2) ∧
        s = indent2 ("\n" ++ jt))
        (srcs.filterMap joinSrcOf) joins) ∧
    (∀ f srcs sels conds gbs obs lim off dist vals t vals2,
      sqlF (f+1) (Query.mk srcs sels conds gbs obs lim off dist) vals = .ok (t, vals2) →
      ∃ tabs subs joins v1 whereC limC offC,
        sourcesF f srcs vals = .ok (tabs, subs, joins, v1) ∧
        t = selectPrefix dist ++
            joinSep ", " ((if sels.isEmpty then [Sum.inl "*"] else sels).map selRender) ++
            ("\nFROM " ++ joinSep ", " tabs ++ joinSep "\n" (subs ++ joins)) ++
            whereC ++
            (if gbs.isEmpty then "" else "\nGROUP BY " ++ joinSep ", " gbs) ++
            (if obs.isEmpty then "" else "\nORDER BY " ++ joinSep ", " (obs.map orderItem)) ++
            limC ++ offC) :=
  ⟨sourcesShape, sqlFromPlacement⟩

/-- Witness for C4: the source-loop part applied to a concrete source list
with one plain table and one nested-Query source. -/
theorem C4_from_clause_witness :
    ["t AS \"a\""] =
      [("a", DataSource.table "t"),
       ("b", DataSource.sub (Query.mk [("u", DataSource.table "user")] [] [] [] [] none none none))].filterMap
        tableEntryOf ∧
    List.Forall₂ (fun (p : String × Query) s => ∃ f2 v v2 qt,
      sqlF f2 (Prod.snd p) v = .ok (qt, v2) ∧
      s = "(\n" ++ indent2 qt ++ "\n) AS \"" ++ Prod.fst p ++ "\"")
      ([("a", DataSource.table "t"),
        ("b", DataSource.sub (Query.mk [("u", DataSource.table "user")] [] [] [] [] none none none))].filterMap
        subSrcOf)
      ["(\n  SELECT *\n  FROM user AS \"u\"\n) AS \"b\""] ∧
    List.Forall₂ (fun (p : String × Join) s => ∃ f2 v v2 jt,
      joinRenderF f2 (Prod.snd p) (Prod.fst p) v = .ok (jt, v2) ∧
      s = indent2 ("\n" ++ jt))
      ([("a", DataSource.table "t"),
        ("b", DataSource.sub (Query.mk [("u", DataSource.table "user")] [] [] [] [] none none none))].filterMap
        joinSrcOf)
      [] :=
  C4_from_clause.1 49
    [("a", DataSource.table "t"),
     ("b", DataSource.sub (Query.mk [("u", DataSource.table "user")] [] [] [] [] none none none))]
    [] ["t AS \"a\""] ["(\n  SELECT *\n  FROM user AS \"u\"\n) AS \"b\""] [] [] rfl

/-- C5, counterexample: a slice with an explicit unit step (`q[0:10:1]`)
fails with `ValueError("Step is not supported")`, although the claim states
that a slice with a unit step succeeds. -/
theorem C5_counterexample :
    Query.getitemB (Query.mk [("u", DataSource.table "user")] [] [] [] [] none none none)
      (SliceKey.slice (some 0) (some 10) (some 1)) =
      .error (.valueErr "Step is not supported") :=
  rfl

/-- C5 (amended): `Query.__getitem__` requires a true range index (a scalar
raises `TypeError`) and rejects ANY explicit step, including a unit step,
with `ValueError`; with no step, `offset = start` when a start is present
(the offset field is left unchanged when it is absent) and
`limit = stop - start` when the start is present and nonzero, `stop`
otherwise (a zero start is falsy in Python, so `limit = stop`). -/
theorem C5_slice_indexing :
    (∀ q i, Query.getitemB q (SliceKey.scalar i) = .error (.typeErr "Invalid index type")) ∧
    (∀ q a b n, Query.getitemB q (SliceKey.slice a b (some n)) =
      .error (.valueErr "Step is not supported")) ∧
    (∀ s sel c g o l off d start stop, 0 < start → start ≤ stop →
      Query.getitemB (Query.mk s sel c g o l off d)
          (SliceKey.slice (some start) (some stop) none) =
        .ok (Query.mk s sel c g o (some (stop - start)) (some start) d)) ∧
    (∀ s sel c g o l off d stop, 0 ≤ stop →
      Query.getitemB (Query.mk s sel c g o l off d)
          (SliceKey.slice (some 0) (some stop) none) =
        .ok (Query.mk s sel c g o (some stop) (some 0) d)) ∧
    (∀ s sel c g o l off d stop, 0 ≤ stop →
      Query.getitemB (Query.mk s sel c g o l off d)
          (SliceKey.slice none (some stop) none) =
        .ok (Query.mk s sel c g o (some stop) off d)) ∧
    (∀ s sel c g o l off d start, 0 ≤ start →
      Query.getitemB (Query.mk s sel c g o l off d)
          (SliceKey.slice (some start) none none) =
        .ok (Query.mk s sel c g o l (some start) d)) := by
  refine ⟨fun q i => rfl, fun q a b n => rfl, ?_, ?_, ?_, ?_⟩
  · intro s sel c g o l off d start stop h1 h2
    have hs0 : ¬ start < 0 := by omega
    have hne : start ≠ 0 := by omega
    have hl0 : ¬ stop - start < 0 := by omega
    simp [Query.getitemB, Query.offsetB, Query.limitB, hs0, hne, hl0]
  · intro s sel c g o l off d stop h1
    have hl0 : ¬ stop < 0 := by omega
    simp [Query.getitemB, Query.offsetB, Query.limitB, hl0]
  · intro s sel c g o l off d stop h1
    have hl0 : ¬ stop < 0 := by omega
    simp [Query.getitemB, Query.limitB, hl0]
  · intro s sel c g o l off d start h1
    have hs0 : ¬ start < 0 := by omega
    simp [Query.getitemB, Query.offsetB, hs0]

/-- Witness for C5: slicing `q[5:15]` sets `offset = 5` and
`limit = 15 - 5 = 10`. -/
theorem C5_slice_indexing_witness :
    Query.getitemB (Query.mk [("u", DataSource.table "user")] [] [] [] [] none none none)
      (SliceKey.slice (some 5) (some 15) none) =
      .ok (Query.mk [("u", DataSource.table "user")] [] [] [] [] (some (15 - 5)) (some 5) none) :=
  C5_slice_indexing.2.2.1 [("u", DataSource.table "user")] [] [] [] [] none none none 5 15
    (by decide) (by decide)

/-- C6, counterexample: a table-ref-capability (model) join target raises
`ValueError("Invalid source for join")` instead of rendering via its
qualified name, and the USING form is emitted with a double space before
`USING`, not the single space of the claimed shape. -/
theorem C6_counterexample :
    joinRenderF 10 (Join.mk "INNER" (.modelRef "public.user") (some (Q.mk [] [])) none) "a" []
      = .error (.valueErr "Invalid source for join") ∧
    joinRenderF 10 (Join.mk "INNER" (.table "t") none (some "id")) "a" []
      = .ok ("INNER JOIN t AS \"a\"  USING (id)", []) ∧
    "INNER JOIN t AS \"a\"  USING (id)" ≠ "INNER JOIN t AS \"a\" USING (id)" :=
  ⟨rfl, rfl, by decide⟩

/-- C6 (amended): `Join._render(alias, values)` succeeds only for table-name
and nested-Query targets.  With an on-condition it emits
`<KIND> JOIN <source> AS "<alias>" ON (<cond>)`; with a using-list it emits
`<KIND> JOIN <source> AS "<alias>"  USING (<cols>)` (two spaces before
`USING`).  A nested-Query target renders as an indented parenthesized
subquery threaded through the shared accumulator; a table-ref-capability
target raises `ValueError`. -/
theorem C6_join_render :
    (∀ f jt tn a c u vals ct v2, qRenderF f c vals = .ok (ct, v2) →
      joinRenderF (f+1) (Join.mk jt (.table tn) (some c) u) a vals =
        .ok (jt ++ " JOIN " ++ tn ++ " AS \"" ++ a ++ "\" " ++ "ON (" ++ ct ++ ")", v2)) ∧
    (∀ f jt q a c u vals sub v1 ct v2,
      sqlF f q vals = .ok (sub, v1) → qRenderF f c v1 = .ok (ct, v2) →
      joinRenderF (f+1) (Join.mk jt (.sub q) (some c) u) a vals =
        .ok (jt ++ " JOIN " ++ ("(\n" ++ indent2 sub ++ "\n)") ++ " AS \"" ++ a ++ "\" " ++
          "ON (" ++ ct ++ ")", v2)) ∧
    (∀ f jt tn a cols vals,
      joinRenderF (f+1) (Join.mk jt (.table tn) none (some cols)) a vals =
        .ok (jt ++ " JOIN " ++ tn ++ " AS \"" ++ a ++ "\" " ++ " USING (" ++ cols ++ ")",
          vals)) ∧
    (∀ f jt q a cols vals sub v1, sqlF f q vals = .ok (sub, v1) →
      joinRenderF (f+1) (Join.mk jt (.sub q) none (some cols)) a vals =
        .ok (jt ++ " JOIN " ++ ("(\n" ++ indent2 sub ++ "\n)") ++ " AS \"" ++ a ++ "\" " ++
          " USING (" ++ cols ++ ")", v1)) ∧
    (∀ f jt m onC usingC a vals,
      joinRenderF (f+1) (Join.mk jt (.modelRef m) onC usingC) a vals =
        .error (.valueErr "Invalid source for join")) := by
  refine ⟨?_, ?_, ?_, ?_, ?_⟩
  · intro f jt tn a c u vals ct v2 hq
    simp only [joinRenderF, hq]
  · intro f jt q a c u vals sub v1 ct v2 hs hq
    simp only [joinRenderF, hs, hq]
  · intro f jt tn a cols vals
    simp only [joinRenderF, optStr]
  · intro f jt q a cols vals sub v1 hs
    simp only [joinRenderF, hs, optStr]
  · intro f jt m onC usingC a vals
    simp only [joinRenderF]

/-- Witness for C6: an ON join onto a plain table target. -/
theorem C6_join_render_witness :
    joinRenderF 11 (Join.mk "LEFT" (.table "profile")
        (some (Q.mk [] [("p__user_id", PyVal.vExp "\"u\".\"id\"")])) none) "p" [] =
      .ok ("LEFT" ++ " JOIN " ++ "profile" ++ " AS \"" ++ "p" ++ "\" " ++ "ON (" ++
        "\"p\".\"user_id\" = \"u\".\"id\"" ++ ")", []) :=
  C6_join_render.1 10 "LEFT" "profile" "p"
    (Q.mk [] [("p__user_id", PyVal.vExp "\"u\".\"id\"")]) none []
    "\"p\".\"user_id\" = \"u\".\"id\"" [] rfl

/-- C7: constructing a `Join` with both a truthy on-condition and a truthy
using-list fails, as does constructing with neither; exactly one of the two
succeeds.  (Python truthiness: an empty using string counts as absent.) -/
theorem C7_join_construction :
    (∀ jt tgt c cols, cols ≠ "" →
      mkJoin jt tgt (some c) (some cols) =
        .error (.valueErr "Cannot specify both on and using for a join condition")) ∧
    (∀ jt tgt, mkJoin jt tgt none none = .error (.valueErr "Missing join condition")) ∧
    (∀ jt tgt c, mkJoin jt tgt (some c) none = .ok (Join.mk jt tgt (some c) none)) ∧
    (∀ jt tgt cols, cols ≠ "" →
      mkJoin jt tgt none (some cols) = .ok (Join.mk jt tgt none (some cols))) ∧
    (∀ jt tgt c, mkJoin jt tgt (some c) (some "") =
      .ok (Join.mk jt tgt (some c) (some ""))) ∧
    (∀ jt tgt, mkJoin jt tgt none (some "") = .error (.valueErr "Missing join condition")) := by
  refine ⟨?_, fun jt tgt => rfl, fun jt tgt c => rfl, ?_, fun jt tgt c => rfl,
    fun jt tgt => rfl⟩
  · intro jt tgt c cols hne
    simp [mkJoin, onTruthy, usingTruthy, hne]
  · intro jt tgt cols hne
    simp [mkJoin, onTruthy, usingTruthy, hne]

/-- Witness for C7: both-given and neither-given fail, one-given succeeds,
at a concrete target. -/
theorem C7_join_construction_witness :
    mkJoin "INNER" (.table "t") (some (Q.mk [] [])) (some "id") =
      .error (.valueErr "Cannot specify both on and using for a join condition") :=
  C7_join_construction.1 "INNER" (.table "t") (Q.mk [] []) "id" (by decide)

theorem sourcesPlain : ∀ (f : Nat) (srcs : List (String × DataSource)) (vals : List PyVal),
    srcs.length < f →
    (∀ p ∈ srcs, plainSource (Prod.snd p)) →
    sourcesF f srcs vals = .ok (srcs.filterMap tableEntryOf, [], [], vals) := by
  intro f
  induction f with
  | zero =>
    intro srcs vals hlen _
    exact absurd hlen (by omega)
  | succ f ih =>
    intro srcs vals hlen hplain
    cases srcs with
    | nil => simp [sourcesF]
    | cons p rest =>
      obtain ⟨a, src⟩ := p
      cases src with
      | table tn =>
        simp only [sourcesF,
          ih rest vals (by simp at hlen; omega) (fun p hp => hplain p (by simp [hp])),
          List.filterMap_cons, tableEntryOf]
      | modelRef m =>
        simp only [sourcesF,
          ih rest vals (by simp at hlen; omega) (fun p hp => hplain p (by simp [hp])),
          List.filterMap_cons, tableEntryOf]
      | sub q => exact absurd (hplain (a, .sub q) (by simp)) (by simp [plainSource])
      | joinSrc j => exact absurd (hplain (a, .joinSrc j) (by simp)) (by simp [plainSource])

theorem sqlPlain (srcs : List (String × DataSource))
    (sels : List (String ⊕ (String × String))) (gbs obs : List String) (dist : Option String)
    (hplain : ∀ p ∈ srcs, plainSource (Prod.snd p)) :
    ∃ t, ∀ vals : List PyVal,
      sqlF (srcs.length + 1 + 1) (Query.mk srcs sels [] gbs obs none none dist) vals =
        .ok (t, vals) := by
  refine ⟨selectPrefix dist ++
    joinSep ", " ((if sels.isEmpty then [Sum.inl "*"] else sels).map selRender) ++
    ("\nFROM " ++ joinSep ", " (srcs.filterMap tableEntryOf) ++ joinSep "\n" ([] ++ [])) ++
    "" ++
    (if gbs.isEmpty then "" else "\nGROUP BY " ++ joinSep ", " gbs) ++
    (if obs.isEmpty then "" else "\nORDER BY " ++ joinSep ", " (obs.map orderItem)) ++
    "" ++ "", ?_⟩
  intro vals
  simp only [sqlF, sourcesPlain (srcs.length + 1) srcs vals (by omega) hplain]

/-- C8: rendering is a pure function of the builder value (the embedding is
functional, so two calls agree definitionally), and for a `Query` with no
conditions, no limit, no offset and only plain (non-value-contributing)
sources there is a single text `t`, independent of the accumulator, such
that rendering returns `t` and appends no bound values: in particular both
of two renders from a fresh empty accumulator return `(t, [])`. -/
theorem C8_render_purity :
    ∀ srcs sels gbs obs dist, (∀ p ∈ srcs, plainSource (Prod.snd p)) →
    ∃ t, ∀ vals : List PyVal,
      sqlF (srcs.length + 1 + 1) (Query.mk srcs sels [] gbs obs none none dist) vals =
        .ok (t, vals) :=
  fun srcs sels gbs obs dist hplain => sqlPlain srcs sels gbs obs dist hplain

/-- Witness for C8: a two-source query with DISTINCT, GROUP BY and ORDER BY
renders with an unchanged accumulator. -/
theorem C8_render_purity_witness :
    ∃ t, ∀ vals : List PyVal,
      sqlF ([("u", DataSource.table "user"), ("p", DataSource.modelRef "public.profile")].length + 1 + 1)
        (Query.mk [("u", DataSource.table "user"), ("p", DataSource.modelRef "public.profile")]
          [] [] ["u.id"] ["-u.id"] none none (some "")) vals = .ok (t, vals) :=
  C8_render_purity
    [("u", DataSource.table "user"), ("p", DataSource.modelRef "public.profile")]
    [] ["u.id"] ["-u.id"] (some "")
    (by
      intro p hp
      simp only [List.mem_cons, List.mem_singleton] at hp
      rcases hp with rfl | rfl | h
      · exact trivial
      · exact trivial
      · exact absurd h (by simp))

/-- C9: `q.where(k1=v1, k2=v2)` wraps each keyword argument into its own
single-entry `Q` condition appended in declaration order, so it builds
exactly the same `Query` value as `q.where(k1=v1).where(k2=v2)` and hence
renders the same SQL text and values list. -/
theorem C9_where_batching :
    ∀ s sel c g o l off d (k1 : String) (v1 : PyVal) (k2 : String) (v2 : PyVal),
      k1 ≠ k2 →
      (Query.whereB (Query.mk s sel c g o l off d) [] [(k1, v1), (k2, v2)] =
        Query.whereB (Query.whereB (Query.mk s sel c g o l off d) [] [(k1, v1)]) []
          [(k2, v2)]) ∧
      ∀ fuel vals,
        sqlF fuel (Query.whereB (Query.mk s sel c g o l off d) [] [(k1, v1), (k2, v2)]) vals =
          sqlF fuel (Query.whereB (Query.whereB (Query.mk s sel c g o l off d) [] [(k1, v1)])
            [] [(k2, v2)]) vals := by
  intro s sel c g o l off d k1 v1 k2 v2 hne
  have hq : Query.whereB (Query.mk s sel c g o l off d) [] [(k1, v1), (k2, v2)] =
      Query.whereB (Query.whereB (Query.mk s sel c g o l off d) [] [(k1, v1)]) []
        [(k2, v2)] := by
    simp [Query.whereB]
  exact ⟨hq, fun fuel vals => by rw [hq]⟩

/-- Witness for C9: batched and chained `where` agree on a concrete query. -/
theorem C9_where_batching_witness :
    ("id" ≠ "name__startswith") ∧
    (Query.whereB (Query.mk [("u", DataSource.table "user")] [] [] [] [] none none none) []
        [("id", PyVal.vInt 101), ("name__startswith", PyVal.vStr "J")] =
      Query.whereB (Query.whereB (Query.mk [("u", DataSource.table "user")] [] [] [] [] none none none)
        [] [("id", PyVal.vInt 101)]) [] [("name__startswith", PyVal.vStr "J")]) :=
  ⟨by decide,
    (C9_where_batching [("u", DataSource.table "user")] [] [] [] [] none none none
      "id" (PyVal.vInt 101) "name__startswith" (PyVal.vStr "J") (by decide)).1⟩

/-- C10: an `in` lookup whose collection's first element is a Python bool
succeeds and infers the cast type `int` (Python `bool` is a subclass of
`int`, so `True`/`False` are matched by the `case int()` pattern), emitting
`C = any($N::int[])` rather than failing as an unsupported element kind. -/
theorem C10_bool_in_lookup :
    (∀ f key tab cn (b : Bool) rest vals,
      splitLookup key = .ok (tab, cn, "in") →
      kwEntryF (f+2) key (.vList (.vBool b :: rest)) vals =
        .ok (colRender tab cn ++ " = any(" ++ ("$" ++ natRepr (vals.length + 1)) ++ "::" ++
          "int" ++ "[])", vals ++ [.vList (.vBool b :: rest)])) ∧
    kwEntryF 10 "u__flag__in" (.vList [.vBool true, .vBool false]) [] =
      .ok ("\"u\".\"flag\" = any($1::int[])", [.vList [.vBool true, .vBool false]]) := by
  refine ⟨?_, rfl⟩
  intro f key tab cn b rest vals hsp
  simp only [kwEntryF, hsp, placeholderF]

/-- Witness for C10: a `[True, False]` collection under a qualified column. -/
theorem C10_bool_in_lookup_witness :
    kwEntryF 9 "u__flag__in" (.vList [.vBool true, .vBool false]) [] =
      .ok (colRender "u" "flag" ++ " = any(" ++ ("$" ++ natRepr (0 + 1)) ++ "::" ++ "int" ++
        "[])", [] ++ [.vList [.vBool true, .vBool false]]) :=
  C10_bool_in_lookup.1 7 "u__flag__in" "u" "flag" true [.vBool false] [] rfl
